import Mathlib

/-!
# DHT11 single-wire driver: embedding and verified properties

Shallow embedding of `src/src/DHT.h` and `src/src/DHT.cpp`.

* Machine integers are natural numbers with explicit reduction modulo `2^8`
  or `2^32` wherever the source can wrap.
* The host platform (Arduino core) is a record `Hw`: the line level returned
  by each successive `digitalRead`, the number of samples taken so far, the
  interrupt-enable flag and a log of every platform call.
* `float` is IEEE-754 binary32 restricted to NaN and finite values, with
  round-to-nearest-even on every operation.
-/

namespace DHT11

/-! ## Binary32 arithmetic -/

/-- Binary32 value: NaN, or the finite number `m * 2^e`.  Finite values are kept
in normal form (`m` odd, or `m = 0` and `e = 0`).  Infinities and the sign of
zero are not represented: every value the driver computes has magnitude below
`2^9`. -/
inductive F32 where
  | nan : F32
  | fin (m : ℤ) (e : ℤ) : F32
  deriving DecidableEq, Repr

/-- Auxiliary loop of `floorLog2`; the first argument bounds the number of
halvings. -/
def floorLog2Aux : ℕ → ℕ → ℕ
  | 0, _ => 0
  | k + 1, n => if n < 2 then 0 else floorLog2Aux k (n / 2) + 1

/-- Position of the highest set bit of `n` (zero for `n = 0`). -/
def floorLog2 (n : ℕ) : ℕ := floorLog2Aux n n

/-- Number of trailing zero bits of a positive natural number. -/
def trailingZeros (a : ℕ) : ℕ := floorLog2 (a ^^^ (a - 1))

/-- Normal form of the finite number `m * 2^e`. -/
def F32.normal (m e : ℤ) : F32 :=
  if m = 0 then .fin 0 0
  else
    let z := trailingZeros m.natAbs
    .fin (m / (2 ^ z : ℕ)) (e + z)

/-- Round the natural number `a` divided by `2^k` to the nearest integer, ties
to even. -/
def roundShift (a k : ℕ) : ℕ :=
  if k = 0 then a
  else
    let q := a >>> k
    let r := a % 2 ^ k
    let half := 2 ^ (k - 1)
    if r < half then q
    else if half < r then q + 1
    else if q % 2 = 0 then q else q + 1

/-- Round the exact number `m * 2^e` to binary32 (24-bit significand, least
exponent `-126`, round to nearest, ties to even). -/
def F32.round (m e : ℤ) : F32 :=
  if m = 0 then .fin 0 0
  else
    let a := m.natAbs
    let u : ℤ := max ((floorLog2 a : ℤ) + e) (-126) - 23
    if u ≤ e then F32.normal m e
    else F32.normal (m.sign * (roundShift a (u - e).toNat : ℕ)) u

/-- Conversion of an integer to `float`. -/
def F32.ofInt (n : ℤ) : F32 := F32.round n 0

/-- Exact sum of two finite numbers, before rounding. -/
def exactAdd (m₁ e₁ m₂ e₂ : ℤ) : ℤ × ℤ :=
  let e := min e₁ e₂
  (m₁ * (2 ^ (e₁ - e).toNat : ℕ) + m₂ * (2 ^ (e₂ - e).toNat : ℕ), e)

/-- Float addition. -/
def F32.add : F32 → F32 → F32
  | .fin m₁ e₁, .fin m₂ e₂ => F32.round (exactAdd m₁ e₁ m₂ e₂).1 (exactAdd m₁ e₁ m₂ e₂).2
  | _, _ => .nan

/-- Float subtraction. -/
def F32.sub : F32 → F32 → F32
  | .fin m₁ e₁, .fin m₂ e₂ => F32.round (exactAdd m₁ e₁ (-m₂) e₂).1 (exactAdd m₁ e₁ (-m₂) e₂).2
  | _, _ => .nan

/-- Float multiplication. -/
def F32.mul : F32 → F32 → F32
  | .fin m₁ e₁, .fin m₂ e₂ => F32.round (m₁ * m₂) (e₁ + e₂)
  | _, _ => .nan

/-- The literal `0.1f`: the binary32 number nearest to one tenth,
`13421773 * 2^-27` (bit pattern `0x3DCCCCCD`). -/
def F32.tenth : F32 := .fin 13421773 (-27)

/-- Rational value of a finite float, `none` for NaN. -/
def F32.toRat : F32 → Option ℚ
  | .nan => none
  | .fin m e => some (m * (2 : ℚ) ^ e)

/-! ## Constants of `DHT.cpp` -/

/-- Macro `MIN_INTERVAL` of `DHT.cpp` (`#define MIN_INTERVAL 2000`). -/
def MIN_INTERVAL : ℕ := 2000

/-- Macro `TIMEOUT` of `DHT.cpp` (`#define TIMEOUT UINT32_MAX`). -/
def TIMEOUT : ℕ := 4294967295

/-- Logic level `LOW`. -/
def LOW : Bool := false

/-- Logic level `HIGH`. -/
def HIGH : Bool := true

/-- Subtraction of two `uint32_t` values. -/
def sub32 (a b : ℕ) : ℕ := (a + 4294967296 - b % 4294967296) % 4294967296

/-! ## Host platform -/

/-- Pin modes of the Arduino core. -/
inductive PinMode where
  | INPUT | OUTPUT | INPUT_PULLUP
  deriving DecidableEq, Repr

/-- One call into the host platform. -/
inductive Event where
  | pinMode (pin : ℕ) (mode : PinMode)
  | digitalWrite (pin : ℕ) (level : Bool)
  | digitalRead (pin : ℕ)
  | delay (ms : ℕ)
  | delayMicroseconds (us : ℕ)
  | noInterrupts
  | interrupts
  deriving DecidableEq, Repr

/-- Host platform state.  `line k` is the level returned by the `k`-th
`digitalRead` (counting from zero), `reads` the number of samples taken so far,
`irq` whether interrupts are enabled, `log` the platform calls made so far,
newest first. -/
structure Hw where
  line : ℕ → Bool
  reads : ℕ
  irq : Bool
  log : List Event

/-- Platform call `pinMode(pin, mode)`. -/
def pinMode (pin : ℕ) (mode : PinMode) (hw : Hw) : Hw :=
  { hw with log := Event.pinMode pin mode :: hw.log }

/-- Platform call `digitalWrite(pin, level)`. -/
def digitalWrite (pin : ℕ) (level : Bool) (hw : Hw) : Hw :=
  { hw with log := Event.digitalWrite pin level :: hw.log }

/-- Platform call `delay(ms)`. -/
def delay (ms : ℕ) (hw : Hw) : Hw :=
  { hw with log := Event.delay ms :: hw.log }

/-- Platform call `delayMicroseconds(us)`. -/
def delayMicroseconds (us : ℕ) (hw : Hw) : Hw :=
  { hw with log := Event.delayMicroseconds us :: hw.log }

/-- Platform call `noInterrupts()`. -/
def noInterrupts (hw : Hw) : Hw :=
  { hw with irq := false, log := Event.noInterrupts :: hw.log }

/-- Platform call `interrupts()`. -/
def interrupts (hw : Hw) : Hw :=
  { hw with irq := true, log := Event.interrupts :: hw.log }

/-- Platform call `digitalRead(pin)`: the sampled level and the platform afterwards. -/
def digitalRead (pin : ℕ) (hw : Hw) : Bool × Hw :=
  (hw.line hw.reads,
   { hw with reads := hw.reads + 1, log := Event.digitalRead pin :: hw.log })

/-! ## Driver state -/

/-- Structure `DHT::Reading`. -/
structure Reading where
  temperature : F32
  humidity : F32
  isValid : Bool
  deriving DecidableEq, Repr

/-- Private members of `class DHT`. -/
structure DHT where
  _pin : ℕ
  _data : List ℕ
  _lastReadTime : ℕ
  _lastReadSuccess : Bool
  deriving DecidableEq, Repr

/-- Structure `DHT::Specs`. -/
structure Specs where
  name : String
  temp_min : F32
  temp_max : F32
  temp_res : F32
  hum_min : F32
  hum_max : F32
  hum_res : F32
  min_delay : ℕ
  deriving DecidableEq, Repr

/-- Constant `DHT::SENSOR_SPECS` of `DHT.h`. -/
def SENSOR_SPECS : Specs :=
  { name := "DHT11"
    temp_min := F32.ofInt 0
    temp_max := F32.ofInt 50
    temp_res := F32.ofInt 2
    hum_min := F32.ofInt 20
    hum_max := F32.ofInt 80
    hum_res := F32.ofInt 5
    min_delay := 1000 }

/-- Method `DHT::getSpecs()`. -/
def DHT.getSpecs (_s : DHT) : Specs := SENSOR_SPECS

/-- Constructor `DHT::DHT(uint8_t pin)`. -/
def DHT.new (pin : ℕ) : DHT :=
  { _pin := pin, _data := [0, 0, 0, 0, 0], _lastReadTime := 0, _lastReadSuccess := false }

/-- Method `DHT::begin()`, run while `millis()` returns `now`. -/
def DHT.begin (now : ℕ) (s : DHT) (hw : Hw) : DHT × Hw :=
  ({ s with _lastReadTime := sub32 now MIN_INTERVAL }, pinMode s._pin PinMode.INPUT_PULLUP hw)

/-- Method `DHT::computeTemperature()` applied to `_data`. -/
def computeTemperature (data : List ℕ) : F32 :=
  let temp := F32.ofInt (data.getD 2 0)
  let temp := if data.getD 3 0 &&& 0x80 ≠ 0 then F32.sub (F32.ofInt (-1)) temp else temp
  F32.add temp (F32.mul (F32.ofInt ((data.getD 3 0 &&& 0x0f : ℕ) : ℤ)) F32.tenth)

/-- Method `DHT::computeHumidity()` applied to `_data`. -/
def computeHumidity (data : List ℕ) : F32 :=
  F32.add (F32.ofInt (data.getD 0 0)) (F32.mul (F32.ofInt (data.getD 1 0)) F32.tenth)

/-- Loop of `DHT::expectPulse` entered with counter `count`; the first argument
bounds the number of iterations (`maxCycles + 1 - count` always suffices, see
`expectPulseLoop_fuel`).  Each iteration samples the line once; a sample equal
to `level` either times out (`count >= maxCycles`) or increments the counter. -/
def expectPulseLoop (maxCycles pin : ℕ) (level : Bool) : ℕ → ℕ → Hw → ℕ × Hw
  | 0, _, hw => (TIMEOUT, hw)
  | fuel + 1, count, hw =>
    if (digitalRead pin hw).1 = level then
      if maxCycles ≤ count then (TIMEOUT, (digitalRead pin hw).2)
      else expectPulseLoop maxCycles pin level fuel ((count + 1) % 4294967296) (digitalRead pin hw).2
    else (count, (digitalRead pin hw).2)

/-- Method `DHT::expectPulse(level)`, where `maxCycles` is the `uint32_t` value of
`microsecondsToClockCycles(1000)` on the host. -/
def expectPulse (maxCycles pin : ℕ) (level : Bool) (hw : Hw) : ℕ × Hw :=
  expectPulseLoop maxCycles pin level (maxCycles + 1) 0 hw

/-- The loop `for (int i = 0; i < 80; i += 2)` of `readRawData`, entered at index
`i` with `n` iterations left. -/
def captureLoop (maxCycles pin : ℕ) : ℕ → ℕ → List ℕ → Hw → List ℕ × Hw
  | 0, _, cycles, hw => (cycles, hw)
  | n + 1, i, cycles, hw =>
    let lo := expectPulse maxCycles pin LOW hw
    let hi := expectPulse maxCycles pin HIGH lo.2
    captureLoop maxCycles pin n (i + 2) ((cycles.set i lo.1).set (i + 1) hi.1) hi.2

/-- The loop `for (int i = 0; i < 40; ++i)` of `readRawData`, entered at bit
index `i` with `n` iterations left.  The result is `(false, data)` when the loop
is left through the early `return false`, `(true, data)` when it runs to the
end. -/
def decodeLoop (cycles : List ℕ) : ℕ → ℕ → List ℕ → Bool × List ℕ
  | 0, _, data => (true, data)
  | n + 1, i, data =>
    let lowCycles := cycles.getD (2 * i) 0
    let highCycles := cycles.getD (2 * i + 1) 0
    if lowCycles = TIMEOUT ∨ highCycles = TIMEOUT then (false, data)
    else
      let data := data.set (i / 8) ((data.getD (i / 8) 0 <<< 1) % 256)
      let data := if lowCycles < highCycles then data.set (i / 8) (data.getD (i / 8) 0 ||| 1) else data
      decodeLoop cycles n (i + 1) data

/-- The start signal of `readRawData` up to and including `noInterrupts()`. -/
def startSignal (pin : ℕ) (hw : Hw) : Hw :=
  noInterrupts (delayMicroseconds 55 (pinMode pin PinMode.INPUT_PULLUP
    (delay 20 (digitalWrite pin LOW (pinMode pin PinMode.OUTPUT
      (delay 1 (pinMode pin PinMode.INPUT_PULLUP hw)))))))

/-- The checksum test of `readRawData`: `_data[4] == (uint8_t)(_data[0] + _data[1]
+ _data[2] + _data[3])`. -/
def checksumOk (data : List ℕ) : Bool :=
  data.getD 4 0 == (data.getD 0 0 + data.getD 1 0 + data.getD 2 0 + data.getD 3 0) % 256

/-- Method `DHT::readRawData()`: the returned flag, the driver afterwards and the
platform afterwards. -/
def readRawData (maxCycles : ℕ) (s : DHT) (hw : Hw) : Bool × DHT × Hw :=
  let s := { s with _data := [0, 0, 0, 0, 0] }
  let hw := startSignal s._pin hw
  let lo := expectPulse maxCycles s._pin LOW hw
  if lo.1 = TIMEOUT then
    (false, { s with _lastReadSuccess := false }, interrupts lo.2)
  else
    let hi := expectPulse maxCycles s._pin HIGH lo.2
    if hi.1 = TIMEOUT then
      (false, { s with _lastReadSuccess := false }, interrupts hi.2)
    else
      let cap := captureLoop maxCycles s._pin 40 0 (List.replicate 80 0) hi.2
      let hw := interrupts cap.2
      let dec := decodeLoop cap.1 40 0 s._data
      if dec.1 = false then
        (false, { s with _data := dec.2, _lastReadSuccess := false }, hw)
      else
        (checksumOk dec.2, { s with _data := dec.2, _lastReadSuccess := checksumOk dec.2 }, hw)

/-- Method `DHT::read()`, run while `millis()` returns `now`. -/
def DHT.read (maxCycles now : ℕ) (s : DHT) (hw : Hw) : Reading × DHT × Hw :=
  let result : Reading := { temperature := F32.nan, humidity := F32.nan, isValid := false }
  let currentTime := now
  if sub32 currentTime s._lastReadTime < MIN_INTERVAL then
    let result := { result with isValid := s._lastReadSuccess }
    if result.isValid then
      ({ result with temperature := computeTemperature s._data,
                     humidity := computeHumidity s._data }, s, hw)
    else (result, s, hw)
  else
    let s := { s with _lastReadTime := currentTime }
    let r := readRawData maxCycles s hw
    if r.1 then
      ({ temperature := computeTemperature r.2.1._data,
         humidity := computeHumidity r.2.1._data, isValid := true }, r.2.1, r.2.2)
    else (result, r.2.1, r.2.2)

/-! ## Test fixtures: scripted lines -/

/-- Samples seen while one pulse at `level` is measured: `n` samples at `level`
followed by the sample at the opposite level that ends the measurement. -/
def pulse (level : Bool) (n : ℕ) : List Bool := List.replicate n level ++ [!level]

/-- Samples of one data bit: a LOW pulse of 2 counts, then a HIGH pulse of 1
count for a zero bit and 3 counts for a one bit. -/
def bitSamples (b : Bool) : List Bool := pulse LOW 2 ++ pulse HIGH (if b then 3 else 1)

/-- Samples of one byte, most significant bit first. -/
def byteSamples (x : ℕ) : List Bool :=
  (List.range 8).flatMap fun k => bitSamples (x.testBit (7 - k))

/-- Samples of a whole exchange: the acknowledgment preamble followed by the
bytes of `frame`. -/
def frameSamples (frame : List ℕ) : List Bool :=
  pulse LOW 2 ++ pulse HIGH 2 ++ frame.flatMap byteSamples

/-- Platform with interrupts enabled, an empty log, and a line that returns the
scripted samples and stays HIGH (pull-up) afterwards. -/
def scriptedHw (samples : List Bool) : Hw :=
  { line := fun k => samples.getD k true, reads := 0, irq := true, log := [] }



/-! ## Quantities observed during one exchange -/

/-- Duration returned by the first preamble measurement, `expectPulse(LOW)`. -/
def preambleLow (maxCycles pin : ℕ) (hw : Hw) : ℕ :=
  (expectPulse maxCycles pin LOW (startSignal pin hw)).1

/-- Duration returned by the second preamble measurement, `expectPulse(HIGH)`
(it is taken only when the first one did not time out). -/
def preambleHigh (maxCycles pin : ℕ) (hw : Hw) : ℕ :=
  (expectPulse maxCycles pin HIGH (expectPulse maxCycles pin LOW (startSignal pin hw)).2).1

/-- Platform state when the capture loop is entered. -/
def afterPreamble (maxCycles pin : ℕ) (hw : Hw) : Hw :=
  (expectPulse maxCycles pin HIGH (expectPulse maxCycles pin LOW (startSignal pin hw)).2).2

/-- The array `cycles[80]` as filled by the capture loop. -/
def capturedCycles (maxCycles pin : ℕ) (hw : Hw) : List ℕ :=
  (captureLoop maxCycles pin 40 0 (List.replicate 80 0) (afterPreamble maxCycles pin hw)).1

/-- Value of data bit `i`: one when the HIGH duration exceeds the LOW one. -/
def bitAt (cycles : List ℕ) (i : ℕ) : ℕ :=
  if cycles.getD (2 * i) 0 < cycles.getD (2 * i + 1) 0 then 1 else 0

/-- Byte `b` of the frame once the first `k` bits are shifted in. -/
def packed (cycles : List ℕ) (b : ℕ) : ℕ → ℕ
  | 0 => 0
  | k + 1 => if k / 8 = b then 2 * packed cycles b k + bitAt cycles k else packed cycles b k

/-! ## Fixtures for worked examples -/

/-- Durations captured for `frame` on an ideal line: every LOW pulse lasts 2
counts, the HIGH pulse 3 counts for a one bit and 1 count for a zero bit. -/
def cyclesOfFrame (frame : List ℕ) : List ℕ :=
  frame.flatMap fun x => (List.range 8).flatMap fun k => [2, if x.testBit (7 - k) then 3 else 1]

/-- Scripted platform on which the sensor answers with the frame
`[45, 0, 25, 0, 70]` (checksum correct). -/
def goodFrameHw : Hw := scriptedHw (frameSamples [45, 0, 25, 0, 70])

/-- Scripted platform on which the sensor answers with the frame
`[45, 0, 25, 0, 71]` (checksum off by one). -/
def badFrameHw : Hw := scriptedHw (frameSamples [45, 0, 25, 0, 71])

/-- Driver whose last exchange, at clock value 5000, succeeded with the frame
`[45, 0, 25, 0, 70]`. -/
def cachedGood : DHT :=
  { _pin := 2, _data := [45, 0, 25, 0, 70], _lastReadTime := 5000, _lastReadSuccess := true }

/-- Platform whose line stays HIGH (pull-up, no sensor answering). -/
def idleHw : Hw := scriptedHw []

/-- Driver and platform after `begin()` at clock value 2000 followed by a first
`read()` at the same clock value, on the line carrying `[45, 0, 25, 0, 70]`. -/
def afterFirstRead : Reading × DHT × Hw :=
  DHT.read 10 2000 (DHT.begin 2000 (DHT.new 2) goodFrameHw).1
    (DHT.begin 2000 (DHT.new 2) goodFrameHw).2

/-! ## Sequences of operations and platform traces -/

/-- One call of the public interface, with the clock value at which it runs. -/
inductive Op where
  | begin (now : ℕ)
  | read (now : ℕ)
  deriving DecidableEq, Repr

/-- Clock value at which an operation runs. -/
def Op.time : Op → ℕ
  | .begin now => now
  | .read now => now

/-- Driver and platform after one operation. -/
def step (maxCycles : ℕ) (op : Op) (c : DHT × Hw) : DHT × Hw :=
  match op with
  | .begin now => DHT.begin now c.1 c.2
  | .read now => (DHT.read maxCycles now c.1 c.2).2

/-- Stored last-read timestamp after each operation of a sequence. -/
def timestampTrace (maxCycles : ℕ) : List Op → DHT × Hw → List ℕ
  | [], _ => []
  | op :: ops, c =>
    (step maxCycles op c).1._lastReadTime :: timestampTrace maxCycles ops (step maxCycles op c)

/-- Platform calls of the start signal, newest first, ending with
`noInterrupts()`. -/
def startSignalEvents (pin : ℕ) : List Event :=
  [Event.noInterrupts, Event.delayMicroseconds 55, Event.pinMode pin PinMode.INPUT_PULLUP,
   Event.delay 20, Event.digitalWrite pin LOW, Event.pinMode pin PinMode.OUTPUT,
   Event.delay 1, Event.pinMode pin PinMode.INPUT_PULLUP]

/-- The cache-hit `read()` at clock value 3500 that follows `afterFirstRead`. -/
def secondRead : Reading × DHT × Hw :=
  DHT.read 10 3500 afterFirstRead.2.1 afterFirstRead.2.2

/-- Relation between the platform before and after `k` samples of `pin` and no
other platform call. -/
def Sampled (pin k : ℕ) (hw hw' : Hw) : Prop :=
  hw'.log = List.replicate k (Event.digitalRead pin) ++ hw.log ∧
    hw'.reads = hw.reads + k ∧ hw'.irq = hw.irq ∧ hw'.line = hw.line

/-- Test that each entry of a list is at most the next one. -/
def nonDecreasing : List ℕ → Bool
  | a :: b :: l => decide (a ≤ b) && nonDecreasing (b :: l)
  | _ => true

/-- Platform whose line is LOW for four samples and HIGH afterwards. -/
def stuckLowHw : Hw := scriptedHw [false, false, false, false]

/-- Platform on which the sensor acknowledges, sends the byte 45 and then
releases the line, which stays HIGH. -/
def truncatedHw : Hw := scriptedHw (pulse LOW 2 ++ pulse HIGH 2 ++ byteSamples 45)

/-- Interrupt-enable flag after one platform call. -/
def irqStep (irq : Bool) : Event → Bool
  | Event.noInterrupts => false
  | Event.interrupts => true
  | _ => irq

/-- The platform calls of a chronological sequence that are issued while
interrupts are disabled, when the sequence starts with the flag `irq`. -/
def disabledEvents : Bool → List Event → List Event
  | _, [] => []
  | irq, e :: es =>
    if irq then disabledEvents (irqStep irq e) es else e :: disabledEvents (irqStep irq e) es

/-- Driver and platform after a sequence of operations. -/
def run (maxCycles : ℕ) : List Op → DHT × Hw → DHT × Hw
  | [], c => c
  | op :: ops, c => run maxCycles ops (step maxCycles op c)

/-- Driver whose last exchange, at clock value 5000, failed at the handshake. -/
def cachedFailed : DHT :=
  { _pin := 2, _data := [0, 0, 0, 0, 0], _lastReadTime := 5000, _lastReadSuccess := false }

/-! ## Lemmas -/

theorem packed_succ (cycles : List ℕ) (b k : ℕ) :
    packed cycles b (k + 1) =
      if k / 8 = b then 2 * packed cycles b k + bitAt cycles k else packed cycles b k := rfl

theorem bitAt_le_one (cycles : List ℕ) (i : ℕ) : bitAt cycles i ≤ 1 := by
  unfold bitAt; split <;> omega

theorem packed_lt (cycles : List ℕ) (b k : ℕ) :
    packed cycles b k < 2 ^ (min k (8 * b + 8) - 8 * b) := by
  induction k with
  | zero => simp [packed]
  | succ k ih =>
    rw [packed_succ]
    split
    · next h =>
      have hk1 : 8 * b ≤ k := by omega
      have hk2 : k < 8 * b + 8 := by omega
      have e1 : min k (8 * b + 8) - 8 * b = k - 8 * b := by omega
      have e2 : min (k + 1) (8 * b + 8) - 8 * b = (k - 8 * b) + 1 := by omega
      rw [e1] at ih
      rw [e2, pow_succ]
      have := bitAt_le_one cycles k
      omega
    · next h =>
      refine lt_of_lt_of_le ih (Nat.pow_le_pow_right (by norm_num) ?_)
      omega

theorem packed_stable (cycles : List ℕ) (b k : ℕ) (h : 8 * b + 8 ≤ k) :
    packed cycles b k = packed cycles b (8 * b + 8) := by
  induction k, h using Nat.le_induction with
  | base => rfl
  | succ k hk ih =>
    rw [packed_succ, if_neg (by omega), ih]

theorem packed_testBit (cycles : List ℕ) (b k : ℕ) (hk : k ≤ 8 * b + 8) (i : ℕ)
    (h1 : 8 * b ≤ i) (h2 : i < k) :
    (packed cycles b k).testBit (k - 1 - i) = decide (bitAt cycles i = 1) := by
  induction k with
  | zero => omega
  | succ k ih =>
    have hb : k / 8 = b := by omega
    rw [packed_succ, if_pos hb]
    rcases Nat.lt_or_ge i k with hik | hik
    · have e : k + 1 - 1 - i = (k - 1 - i) + 1 := by omega
      rw [e, Nat.testBit_succ]
      have e2 : (2 * packed cycles b k + bitAt cycles k) / 2 = packed cycles b k := by
        have := bitAt_le_one cycles k
        omega
      rw [e2]
      exact ih (by omega) hik
    · have e : i = k := by omega
      subst e
      have e3 : i + 1 - 1 - i = 0 := by omega
      rw [e3, Nat.testBit_zero]
      have := bitAt_le_one cycles i
      rcases Nat.lt_or_ge (bitAt cycles i) 1 with h0 | h0
      · have : bitAt cycles i = 0 := by omega
        simp [this]
      · have : bitAt cycles i = 1 := by omega
        simp [this]
        omega

theorem getD_set_eq (l : List ℕ) (i j v : ℕ) (hi : i < l.length) :
    (l.set i v).getD j 0 = if j = i then v else l.getD j 0 := by
  simp only [List.getD_eq_getElem?_getD, List.getElem?_set]
  by_cases h : i = j
  · subst h; simp [hi]
  · have h2 : ¬ j = i := fun e => h e.symm
    simp [h, h2]

theorem shl_or_one (x : ℕ) : (x <<< 1) ||| 1 = 2 * x + 1 := by
  rw [Nat.shiftLeft_eq, pow_one]
  apply Nat.eq_of_testBit_eq
  intro j
  rw [Nat.testBit_or]
  cases j with
  | zero => simp [Nat.testBit_zero]; omega
  | succ j =>
    simp only [Nat.testBit_succ]
    have e1 : x * 2 / 2 = x := by omega
    have e2 : (2 * x + 1) / 2 = x := by omega
    simp [e1, e2]

/-- The decode loop entered at bit `i` with the first `i` bits already shifted
in runs to the end and leaves every byte at its fully packed value. -/
theorem decodeLoop_packed (cycles : List ℕ) (hc : ∀ j, j < 80 → cycles.getD j 0 ≠ TIMEOUT)
    (n i : ℕ) (data : List ℕ) (hn : i + n = 40) (hlen : data.length = 5)
    (hd : ∀ b, b < 5 → data.getD b 0 = packed cycles b i) :
    (decodeLoop cycles n i data).1 = true ∧ (decodeLoop cycles n i data).2.length = 5 ∧
      ∀ b, b < 5 → (decodeLoop cycles n i data).2.getD b 0 = packed cycles b 40 := by
  induction n generalizing i data with
  | zero =>
    have : i = 40 := by omega
    subst this
    exact ⟨rfl, hlen, hd⟩
  | succ n ih =>
    have h1 := hc (2 * i) (by omega)
    have h2 := hc (2 * i + 1) (by omega)
    have hb : i / 8 < 5 := by omega
    have hold : data.getD (i / 8) 0 < 128 := by
      rw [hd _ hb]
      have := packed_lt cycles (i / 8) i
      have e : min i (8 * (i / 8) + 8) - 8 * (i / 8) = i % 8 := by omega
      rw [e] at this
      have h7 : i % 8 ≤ 7 := by omega
      calc packed cycles (i / 8) i < 2 ^ (i % 8) := this
        _ ≤ 2 ^ 7 := Nat.pow_le_pow_right (by norm_num) h7
    simp only [decodeLoop]
    rw [if_neg (not_or.mpr ⟨h1, h2⟩)]
    apply ih
    · omega
    · split <;> simp [hlen]
    · intro b hb5
      rw [packed_succ]
      have hshift : (data.getD (i / 8) 0 <<< 1) % 256 = 2 * data.getD (i / 8) 0 := by
        rw [Nat.shiftLeft_eq, pow_one]; omega
      by_cases hlt : cycles.getD (2 * i) 0 < cycles.getD (2 * i + 1) 0
      · rw [if_pos hlt]
        have hbit : bitAt cycles i = 1 := by unfold bitAt; rw [if_pos hlt]
        rw [getD_set_eq _ _ _ _ (by simp [hlen]; omega)]
        by_cases hbi : b = i / 8
        · subst hbi
          rw [if_pos rfl, getD_set_eq _ _ _ _ (by omega), if_pos rfl, if_pos rfl, hbit,
            ← hd _ hb, ← shl_or_one]
          have : (data.getD (i / 8) 0 <<< 1) % 256 = data.getD (i / 8) 0 <<< 1 := by
            rw [Nat.shiftLeft_eq, pow_one]; omega
          rw [this]
        · rw [if_neg hbi, getD_set_eq _ _ _ _ (by omega), if_neg hbi,
            if_neg (fun e => hbi e.symm)]
          exact hd b hb5
      · rw [if_neg hlt]
        have hbit : bitAt cycles i = 0 := by unfold bitAt; rw [if_neg hlt]
        rw [getD_set_eq _ _ _ _ (by omega)]
        by_cases hbi : b = i / 8
        · subst hbi
          rw [if_pos rfl, if_pos rfl, hbit, hshift, hd _ hb, Nat.add_zero]
        · rw [if_neg hbi, if_neg (fun e => hbi e.symm)]
          exact hd b hb5


theorem captureLoop_length (maxCycles pin n i : ℕ) (cycles : List ℕ) (hw : Hw) :
    (captureLoop maxCycles pin n i cycles hw).1.length = cycles.length := by
  induction n generalizing i cycles hw with
  | zero => rfl
  | succ n ih => simp only [captureLoop]; rw [ih]; simp

theorem capturedCycles_length (maxCycles pin : ℕ) (hw : Hw) :
    (capturedCycles maxCycles pin hw).length = 80 := by
  unfold capturedCycles; rw [captureLoop_length]; simp

theorem getD_ne_of_forall_mem (cycles : List ℕ) (hlen : cycles.length = 80)
    (hc : ∀ c ∈ cycles, c ≠ TIMEOUT) (j : ℕ) (hj : j < 80) : cycles.getD j 0 ≠ TIMEOUT := by
  have hj2 : j < cycles.length := by omega
  rw [List.getD_eq_getElem _ _ hj2]
  exact hc _ (List.getElem_mem hj2)

theorem packed_zero_frame (cycles : List ℕ) (b : ℕ) (hb : b < 5) :
    ([0, 0, 0, 0, 0] : List ℕ).getD b 0 = packed cycles b 0 := by
  have : b = 0 ∨ b = 1 ∨ b = 2 ∨ b = 3 ∨ b = 4 := by omega
  rcases this with h | h | h | h | h <;> subst h <;> rfl

/-- When neither preamble pulse times out, `readRawData` is the decode of the
captured array followed by the checksum test. -/
theorem readRawData_of_preamble (maxCycles : ℕ) (s : DHT) (hw : Hw)
    (hlo : preambleLow maxCycles s._pin hw ≠ TIMEOUT)
    (hhi : preambleHigh maxCycles s._pin hw ≠ TIMEOUT) :
    readRawData maxCycles s hw =
      if (decodeLoop (capturedCycles maxCycles s._pin hw) 40 0 [0, 0, 0, 0, 0]).1 = false then
        (false,
         { s with _data := (decodeLoop (capturedCycles maxCycles s._pin hw) 40 0 [0, 0, 0, 0, 0]).2,
                  _lastReadSuccess := false },
         interrupts (captureLoop maxCycles s._pin 40 0 (List.replicate 80 0)
           (afterPreamble maxCycles s._pin hw)).2)
      else
        (checksumOk (decodeLoop (capturedCycles maxCycles s._pin hw) 40 0 [0, 0, 0, 0, 0]).2,
         { s with _data := (decodeLoop (capturedCycles maxCycles s._pin hw) 40 0 [0, 0, 0, 0, 0]).2,
                  _lastReadSuccess :=
                    checksumOk (decodeLoop (capturedCycles maxCycles s._pin hw) 40 0 [0, 0, 0, 0, 0]).2 },
         interrupts (captureLoop maxCycles s._pin 40 0 (List.replicate 80 0)
           (afterPreamble maxCycles s._pin hw)).2) := by
  unfold preambleLow at hlo
  unfold preambleHigh at hhi
  unfold readRawData capturedCycles afterPreamble
  simp only []
  rw [if_neg hlo, if_neg hhi]

/-- C1: in every exchange whose two preamble pulses and 80 captured durations
all differ from TIMEOUT, `readRawData` returns true exactly when the decoded
byte 4 equals the sum of bytes 0 to 3 modulo 256; the decoded frame is the one
left in `_data`, and the cached success flag is the returned value. -/
theorem readRawData_succeeds_iff_checksum (maxCycles : ℕ) (s : DHT) (hw : Hw)
    (hlo : preambleLow maxCycles s._pin hw ≠ TIMEOUT)
    (hhi : preambleHigh maxCycles s._pin hw ≠ TIMEOUT)
    (hc : ∀ c ∈ capturedCycles maxCycles s._pin hw, c ≠ TIMEOUT) :
    ((readRawData maxCycles s hw).1 = true ↔
      (readRawData maxCycles s hw).2.1._data.getD 4 0 =
        ((readRawData maxCycles s hw).2.1._data.getD 0 0 +
         (readRawData maxCycles s hw).2.1._data.getD 1 0 +
         (readRawData maxCycles s hw).2.1._data.getD 2 0 +
         (readRawData maxCycles s hw).2.1._data.getD 3 0) % 256) ∧
    (readRawData maxCycles s hw).2.1._data =
      (decodeLoop (capturedCycles maxCycles s._pin hw) 40 0 [0, 0, 0, 0, 0]).2 ∧
    (readRawData maxCycles s hw).2.1._lastReadSuccess = (readRawData maxCycles s hw).1 := by
  have hdec := decodeLoop_packed (capturedCycles maxCycles s._pin hw)
    (getD_ne_of_forall_mem _ (capturedCycles_length _ _ _) hc) 40 0 [0, 0, 0, 0, 0] rfl rfl
    (packed_zero_frame _)
  rw [readRawData_of_preamble maxCycles s hw hlo hhi]
  generalize decodeLoop (capturedCycles maxCycles s._pin hw) 40 0 [0, 0, 0, 0, 0] = D at hdec
  rw [if_neg (by rw [hdec.1]; exact Bool.noConfusion)]
  refine ⟨?_, rfl, rfl⟩
  simp only [checksumOk, beq_iff_eq]

/-- C2: for an array of 80 durations none of which is TIMEOUT, the decode loop
runs to its end, and for every bit index `i < 40` bit `7 - i % 8` of byte
`i / 8` of the decoded frame is set exactly when `cycles[2i+1] > cycles[2i]`
(equal durations give 0). -/
theorem decodeLoop_bit_iff (cycles : List ℕ) (hlen : cycles.length = 80)
    (hc : ∀ c ∈ cycles, c ≠ TIMEOUT) (i : ℕ) (hi : i < 40) :
    (decodeLoop cycles 40 0 [0, 0, 0, 0, 0]).1 = true ∧
    (((decodeLoop cycles 40 0 [0, 0, 0, 0, 0]).2.getD (i / 8) 0).testBit (7 - i % 8) = true ↔
      cycles.getD (2 * i) 0 < cycles.getD (2 * i + 1) 0) := by
  have hdec := decodeLoop_packed cycles (getD_ne_of_forall_mem _ hlen hc) 40 0 [0, 0, 0, 0, 0]
    rfl rfl (packed_zero_frame _)
  generalize decodeLoop cycles 40 0 [0, 0, 0, 0, 0] = D at hdec
  refine ⟨hdec.1, ?_⟩
  rw [hdec.2.2 (i / 8) (by omega), packed_stable cycles (i / 8) 40 (by omega)]
  have e : 7 - i % 8 = (8 * (i / 8) + 8) - 1 - i := by omega
  rw [e, packed_testBit cycles (i / 8) (8 * (i / 8) + 8) le_rfl i (by omega) (by omega)]
  unfold bitAt
  by_cases h : cycles.getD (2 * i) 0 < cycles.getD (2 * i + 1) 0
  · rw [if_pos h]; simp only [decide_True, true_iff]; exact h
  · rw [if_neg h]; simp only [zero_ne_one, decide_False, Bool.false_eq_true, false_iff]; exact h

set_option maxRecDepth 100000 in
/-- Witness for C1: on the scripted line carrying `[45, 0, 25, 0, 70]` the
exchange decodes that frame and succeeds; on the line carrying
`[45, 0, 25, 0, 71]` it decodes that frame and fails. -/
theorem readRawData_succeeds_iff_checksum_witness :
    ((readRawData 10 (DHT.new 2) goodFrameHw).2.1._data = [45, 0, 25, 0, 70] ∧
      (readRawData 10 (DHT.new 2) goodFrameHw).1 = true) ∧
    ((readRawData 10 (DHT.new 2) badFrameHw).2.1._data = [45, 0, 25, 0, 71] ∧
      (readRawData 10 (DHT.new 2) badFrameHw).1 = false) :=
  ⟨⟨by decide,
    (readRawData_succeeds_iff_checksum 10 (DHT.new 2) goodFrameHw
      (by decide) (by decide) (by decide)).1.mpr (by decide)⟩,
   ⟨by decide,
    Bool.eq_false_iff.mpr fun ht =>
      absurd ((readRawData_succeeds_iff_checksum 10 (DHT.new 2) badFrameHw
        (by decide) (by decide) (by decide)).1.mp ht) (by decide)⟩⟩

set_option maxRecDepth 100000 in
/-- Witness for C2: on the ideal capture of `[45, 0, 25, 0, 70]`, bit 0 is the top
bit of byte 0 (clear, 45 < 128) and bit 39 the bottom bit of byte 4 (clear, 70 is
even), bit 2 is set; with 80 equal durations bit 0 decodes to 0. -/
theorem decodeLoop_bit_iff_witness :
    (((decodeLoop (cyclesOfFrame [45, 0, 25, 0, 70]) 40 0 [0, 0, 0, 0, 0]).2.getD 0 0).testBit 7 = false ∧
     ((decodeLoop (cyclesOfFrame [45, 0, 25, 0, 70]) 40 0 [0, 0, 0, 0, 0]).2.getD 0 0).testBit 5 = true ∧
     ((decodeLoop (cyclesOfFrame [45, 0, 25, 0, 70]) 40 0 [0, 0, 0, 0, 0]).2.getD 4 0).testBit 0 = false) ∧
    ((decodeLoop (List.replicate 80 5) 40 0 [0, 0, 0, 0, 0]).2.getD 0 0).testBit 7 = false :=
  ⟨⟨Bool.eq_false_iff.mpr fun h =>
      absurd ((decodeLoop_bit_iff (cyclesOfFrame [45, 0, 25, 0, 70]) (by decide) (by decide) 0
        (by decide)).2.mp h) (by decide),
    (decodeLoop_bit_iff (cyclesOfFrame [45, 0, 25, 0, 70]) (by decide) (by decide) 2
        (by decide)).2.mpr (by decide),
    Bool.eq_false_iff.mpr fun h =>
      absurd ((decodeLoop_bit_iff (cyclesOfFrame [45, 0, 25, 0, 70]) (by decide) (by decide) 39
        (by decide)).2.mp h) (by decide)⟩,
   Bool.eq_false_iff.mpr fun h =>
      absurd ((decodeLoop_bit_iff (List.replicate 80 5) (by decide) (by decide) 0
        (by decide)).2.mp h) (by decide)⟩

theorem eq_of_getD_eq (l₁ l₂ : List ℕ) (h₁ : l₁.length = 5) (h₂ : l₂.length = 5)
    (h : ∀ b, b < 5 → l₁.getD b 0 = l₂.getD b 0) : l₁ = l₂ := by
  apply List.ext_getElem (h₁.trans h₂.symm)
  intro n hn₁ hn₂
  have := h n (by omega)
  rwa [List.getD_eq_getElem _ _ hn₁, List.getD_eq_getElem _ _ hn₂] at this

/-- A capture without timeouts whose comparisons spell the bits of `f`, most
significant bit first, decodes to `f`. -/
theorem decodeLoop_eq_frame (cycles f : List ℕ) (hlen : cycles.length = 80)
    (hc : ∀ c ∈ cycles, c ≠ TIMEOUT) (hf : f.length = 5) (hbyte : ∀ x ∈ f, x < 256)
    (henc : ∀ i, i < 40 → (cycles.getD (2 * i) 0 < cycles.getD (2 * i + 1) 0 ↔
      (f.getD (i / 8) 0).testBit (7 - i % 8) = true)) :
    decodeLoop cycles 40 0 [0, 0, 0, 0, 0] = (true, f) := by
  have hdec := decodeLoop_packed cycles (getD_ne_of_forall_mem _ hlen hc) 40 0 [0, 0, 0, 0, 0]
    rfl rfl (packed_zero_frame _)
  generalize decodeLoop cycles 40 0 [0, 0, 0, 0, 0] = D at hdec
  have h2 : D.2 = f := by
    apply eq_of_getD_eq _ _ hdec.2.1 hf
    intro b hb
    rw [hdec.2.2 b hb]
    have hfb : f.getD b 0 < 256 := by
      rw [List.getD_eq_getElem _ _ (by omega)]
      exact hbyte _ (List.getElem_mem _)
    have hpb : packed cycles b 40 < 256 := by
      have := packed_lt cycles b 40
      have e : min 40 (8 * b + 8) - 8 * b = 8 := by omega
      rw [e] at this
      exact this
    apply Nat.eq_of_testBit_eq
    intro j
    rcases Nat.lt_or_ge j 8 with hj | hj
    · have hb2 := henc (8 * b + (7 - j)) (by omega)
      have e1 : (8 * b + (7 - j)) / 8 = b := by omega
      have e2 : 7 - (8 * b + (7 - j)) % 8 = j := by omega
      rw [e1, e2] at hb2
      have hpk := packed_testBit cycles b (8 * b + 8) le_rfl (8 * b + (7 - j)) (by omega) (by omega)
      have e3 : 8 * b + 8 - 1 - (8 * b + (7 - j)) = j := by omega
      rw [e3] at hpk
      rw [packed_stable cycles b 40 (by omega), hpk]
      unfold bitAt
      by_cases h : cycles.getD (2 * (8 * b + (7 - j))) 0 < cycles.getD (2 * (8 * b + (7 - j)) + 1) 0
      · rw [if_pos h, hb2.mp h]; rfl
      · rw [if_neg h]
        have : (f.getD b 0).testBit j ≠ true := fun ht => h (hb2.mpr ht)
        simp only [zero_ne_one, decide_False]
        exact (Bool.eq_false_iff.mpr this).symm
    · have hp : (2 : ℕ) ^ 8 ≤ 2 ^ j := Nat.pow_le_pow_right (by norm_num) hj
      rw [Nat.testBit_lt_two_pow (lt_of_lt_of_le hpb hp),
        Nat.testBit_lt_two_pow (lt_of_lt_of_le hfb hp)]
  exact Prod.ext hdec.1 h2

/-- C3: a `read()` that is not a cache hit, on a capture without timeouts that
spells the checksum-valid 5-byte frame `f` most significant bit first, returns
`isValid = true` with `humidity = computeHumidity(f)` and `temperature =
computeTemperature(f)`. -/
theorem read_fresh_valid_frame (maxCycles now : ℕ) (s : DHT) (hw : Hw) (f : List ℕ)
    (hf : f.length = 5) (hbyte : ∀ x ∈ f, x < 256)
    (hsum : f.getD 4 0 = (f.getD 0 0 + f.getD 1 0 + f.getD 2 0 + f.getD 3 0) % 256)
    (hfresh : ¬ sub32 now s._lastReadTime < 2000)
    (hlo : preambleLow maxCycles s._pin hw ≠ TIMEOUT)
    (hhi : preambleHigh maxCycles s._pin hw ≠ TIMEOUT)
    (hc : ∀ c ∈ capturedCycles maxCycles s._pin hw, c ≠ TIMEOUT)
    (henc : ∀ i, i < 40 →
      ((capturedCycles maxCycles s._pin hw).getD (2 * i) 0 <
          (capturedCycles maxCycles s._pin hw).getD (2 * i + 1) 0 ↔
        (f.getD (i / 8) 0).testBit (7 - i % 8) = true)) :
    (DHT.read maxCycles now s hw).1 =
      { temperature := computeTemperature f, humidity := computeHumidity f, isValid := true } := by
  have hdec := decodeLoop_eq_frame _ f (capturedCycles_length _ _ _) hc hf hbyte henc
  have hok : checksumOk f = true := by
    simp only [checksumOk, beq_iff_eq]; exact hsum
  unfold DHT.read
  simp only []
  rw [if_neg (by simpa [MIN_INTERVAL] using hfresh)]
  rw [readRawData_of_preamble maxCycles { s with _lastReadTime := now } hw hlo hhi]
  simp only [hdec, hok]
  rfl

/-- C4: whenever `read()` returns `isValid = false`, temperature and humidity
are both NaN. -/
theorem read_invalid_no_value (maxCycles now : ℕ) (s : DHT) (hw : Hw)
    (h : (DHT.read maxCycles now s hw).1.isValid = false) :
    (DHT.read maxCycles now s hw).1.temperature = F32.nan ∧
      (DHT.read maxCycles now s hw).1.humidity = F32.nan := by
  unfold DHT.read at h ⊢
  simp only [] at h ⊢
  by_cases hc : sub32 now s._lastReadTime < MIN_INTERVAL
  · rw [if_pos hc] at h ⊢
    cases hs : s._lastReadSuccess
    · simp
    · simp [hs] at h
  · rw [if_neg hc] at h ⊢
    generalize readRawData maxCycles { s with _lastReadTime := now } hw = r at h ⊢
    cases hr : r.1
    · simp
    · simp [hr] at h

/-- C5: a `read()` within the minimum interval performs no platform call, leaves
the driver unchanged, and returns the cached success flag, with the values of
the cached frame when the flag is true and NaN when it is false. -/
theorem read_cache_hit (maxCycles now : ℕ) (s : DHT) (hw : Hw)
    (h : sub32 now s._lastReadTime < 2000) :
    (DHT.read maxCycles now s hw).2.2 = hw ∧
    (DHT.read maxCycles now s hw).2.1 = s ∧
    (DHT.read maxCycles now s hw).1.isValid = s._lastReadSuccess ∧
    (s._lastReadSuccess = true →
      (DHT.read maxCycles now s hw).1.temperature = computeTemperature s._data ∧
      (DHT.read maxCycles now s hw).1.humidity = computeHumidity s._data) ∧
    (s._lastReadSuccess = false →
      (DHT.read maxCycles now s hw).1.temperature = F32.nan ∧
      (DHT.read maxCycles now s hw).1.humidity = F32.nan) := by
  unfold DHT.read
  simp only []
  rw [if_pos (by simpa [MIN_INTERVAL] using h)]
  cases hs : s._lastReadSuccess <;> simp

set_option maxRecDepth 100000 in
/-- Witness for C3: the frame `[45, 0, 25, 0, 70]` read at clock value 5000 on a
new driver gives humidity 45.0, temperature 25.0 and `isValid = true`. -/
theorem read_fresh_valid_frame_witness :
    (DHT.read 10 5000 (DHT.new 2) goodFrameHw).1 =
      { temperature := F32.ofInt 25, humidity := F32.ofInt 45, isValid := true } :=
  (read_fresh_valid_frame 10 5000 (DHT.new 2) goodFrameHw [45, 0, 25, 0, 70] (by decide)
    (by decide) (by decide) (by decide) (by decide) (by decide) (by decide) (by decide)).trans
    (by decide)

set_option maxRecDepth 100000 in
/-- Witness for C4: the captured frame `[45, 0, 25, 0, 71]` gives
`isValid = false` with NaN temperature and humidity. -/
theorem read_invalid_no_value_witness :
    (DHT.read 10 5000 (DHT.new 2) badFrameHw).2.1._data = [45, 0, 25, 0, 71] ∧
    (DHT.read 10 5000 (DHT.new 2) badFrameHw).1.isValid = false ∧
    (DHT.read 10 5000 (DHT.new 2) badFrameHw).1.temperature = F32.nan ∧
    (DHT.read 10 5000 (DHT.new 2) badFrameHw).1.humidity = F32.nan :=
  ⟨by decide, by decide, read_invalid_no_value 10 5000 (DHT.new 2) badFrameHw (by decide)⟩

/-- Witness for C5: 1000 ms after a successful exchange the cached frame is
served, with no platform call and the driver unchanged. -/
theorem read_cache_hit_witness :
    sub32 6000 cachedGood._lastReadTime < 2000 ∧
    (DHT.read 10 6000 cachedGood idleHw).2.2 = idleHw ∧
    (DHT.read 10 6000 cachedGood idleHw).2.1 = cachedGood ∧
    (DHT.read 10 6000 cachedGood idleHw).1.isValid = true ∧
    (DHT.read 10 6000 cachedGood idleHw).1.temperature = F32.ofInt 25 ∧
    (DHT.read 10 6000 cachedGood idleHw).1.humidity = F32.ofInt 45 :=
  ⟨by decide,
   (read_cache_hit 10 6000 cachedGood idleHw (by decide)).1,
   (read_cache_hit 10 6000 cachedGood idleHw (by decide)).2.1,
   (read_cache_hit 10 6000 cachedGood idleHw (by decide)).2.2.1,
   ((read_cache_hit 10 6000 cachedGood idleHw (by decide)).2.2.2.1 rfl).1.trans (by decide),
   ((read_cache_hit 10 6000 cachedGood idleHw (by decide)).2.2.2.1 rfl).2.trans (by decide)⟩

theorem readRawData_state (maxCycles : ℕ) (s : DHT) (hw : Hw) :
    (readRawData maxCycles s hw).2.1._lastReadSuccess = (readRawData maxCycles s hw).1 ∧
    (readRawData maxCycles s hw).2.1._lastReadTime = s._lastReadTime ∧
    (readRawData maxCycles s hw).2.1._pin = s._pin := by
  unfold readRawData
  simp only []
  split
  · exact ⟨rfl, rfl, rfl⟩
  · split
    · exact ⟨rfl, rfl, rfl⟩
    · split
      · exact ⟨rfl, rfl, rfl⟩
      · exact ⟨rfl, rfl, rfl⟩

/-- The Reading served from cache by a driver in state `s`. -/
theorem read_of_cache_hit (maxCycles now : ℕ) (s : DHT) (hw : Hw)
    (h : sub32 now s._lastReadTime < 2000) :
    DHT.read maxCycles now s hw =
      (if s._lastReadSuccess then
        { temperature := computeTemperature s._data, humidity := computeHumidity s._data,
          isValid := true }
       else { temperature := F32.nan, humidity := F32.nan, isValid := false }, s, hw) := by
  unfold DHT.read
  simp only []
  rw [if_pos (by simpa [MIN_INTERVAL] using h)]
  cases hs : s._lastReadSuccess <;> simp

/-- The result of a `read()` that attempts a fresh exchange. -/
theorem read_of_fresh (maxCycles now : ℕ) (s : DHT) (hw : Hw)
    (h : ¬ sub32 now s._lastReadTime < 2000) :
    DHT.read maxCycles now s hw =
      (if (readRawData maxCycles { s with _lastReadTime := now } hw).1 then
        { temperature :=
            computeTemperature (readRawData maxCycles { s with _lastReadTime := now } hw).2.1._data,
          humidity :=
            computeHumidity (readRawData maxCycles { s with _lastReadTime := now } hw).2.1._data,
          isValid := true }
       else { temperature := F32.nan, humidity := F32.nan, isValid := false },
       (readRawData maxCycles { s with _lastReadTime := now } hw).2.1,
       (readRawData maxCycles { s with _lastReadTime := now } hw).2.2) := by
  unfold DHT.read
  simp only []
  rw [if_neg (by simpa [MIN_INTERVAL] using h)]
  generalize readRawData maxCycles { s with _lastReadTime := now } hw = r
  cases hr : r.1 <;> simp

theorem sub32_of_le (a b : ℕ) (hab : a ≤ b) (hb : b < 4294967296) : sub32 b a = b - a := by
  unfold sub32; omega

/-- C6 (amended): two consecutive `read()` calls at clock values `t1 <= t2` with
`t2 - t1 < 2000`, where the first call attempts a fresh exchange or the second
is still within 2000 of the stored last-read timestamp, return identical
Readings, and the second call makes no platform call and leaves the driver
unchanged. -/
theorem read_twice_within_interval (maxCycles t1 t2 : ℕ) (s : DHT) (hw : Hw)
    (h12 : t1 ≤ t2) (hd : t2 - t1 < 2000) (ht2 : t2 < 4294967296)
    (hgate : ¬ sub32 t1 s._lastReadTime < 2000 ∨ sub32 t2 s._lastReadTime < 2000) :
    (DHT.read maxCycles t2 (DHT.read maxCycles t1 s hw).2.1 (DHT.read maxCycles t1 s hw).2.2).1 =
      (DHT.read maxCycles t1 s hw).1 ∧
    (DHT.read maxCycles t2 (DHT.read maxCycles t1 s hw).2.1 (DHT.read maxCycles t1 s hw).2.2).2.2 =
      (DHT.read maxCycles t1 s hw).2.2 ∧
    (DHT.read maxCycles t2 (DHT.read maxCycles t1 s hw).2.1 (DHT.read maxCycles t1 s hw).2.2).2.1 =
      (DHT.read maxCycles t1 s hw).2.1 := by
  by_cases h1 : sub32 t1 s._lastReadTime < 2000
  · have h2 : sub32 t2 s._lastReadTime < 2000 := by
      rcases hgate with h | h
      · exact absurd h1 h
      · exact h
    rw [read_of_cache_hit maxCycles t1 s hw h1]
    simp only []
    rw [read_of_cache_hit maxCycles t2 s hw h2]
    exact ⟨rfl, rfl, rfl⟩
  · rw [read_of_fresh maxCycles t1 s hw h1]
    simp only []
    have hst := readRawData_state maxCycles { s with _lastReadTime := t1 } hw
    generalize readRawData maxCycles { s with _lastReadTime := t1 } hw = r at hst
    have hlast : r.2.1._lastReadTime = t1 := hst.2.1
    have h2 : sub32 t2 r.2.1._lastReadTime < 2000 := by
      rw [hlast, sub32_of_le t1 t2 h12 ht2]; exact hd
    rw [read_of_cache_hit maxCycles t2 r.2.1 r.2.2 h2, hst.1]
    exact ⟨rfl, rfl, rfl⟩

set_option maxRecDepth 100000 in
/-- Counterexample to C6 as stated: after `begin()` and a successful exchange at
clock value 2000, `read()` at 3500 is served from cache (valid, 25.0 / 45.0) and
`read()` at 4500, only 1000 ms later, attempts a new exchange on a line that no
longer answers: it returns an invalid Reading and makes platform calls. -/
theorem read_twice_counterexample :
    (3500 ≤ 4500 ∧ 4500 - 3500 < 2000) ∧
    secondRead.1 = { temperature := F32.ofInt 25, humidity := F32.ofInt 45, isValid := true } ∧
    (DHT.read 10 4500 secondRead.2.1 secondRead.2.2).1 =
      { temperature := F32.nan, humidity := F32.nan, isValid := false } ∧
    (DHT.read 10 4500 secondRead.2.1 secondRead.2.2).1 ≠ secondRead.1 ∧
    (DHT.read 10 4500 secondRead.2.1 secondRead.2.2).2.2.log ≠ secondRead.2.2.log := by
  decide

set_option maxRecDepth 100000 in
/-- Witness for C6 (amended): a fresh exchange at clock value 2000 followed by a
`read()` at 3500 returns the same valid Reading twice. -/
theorem read_twice_within_interval_witness :
    (DHT.read 10 3500
        (DHT.read 10 2000 (DHT.begin 2000 (DHT.new 2) goodFrameHw).1 goodFrameHw).2.1
        (DHT.read 10 2000 (DHT.begin 2000 (DHT.new 2) goodFrameHw).1 goodFrameHw).2.2).1 =
      (DHT.read 10 2000 (DHT.begin 2000 (DHT.new 2) goodFrameHw).1 goodFrameHw).1 ∧
    (DHT.read 10 2000 (DHT.begin 2000 (DHT.new 2) goodFrameHw).1 goodFrameHw).1.isValid = true :=
  ⟨(read_twice_within_interval 10 2000 3500 (DHT.begin 2000 (DHT.new 2) goodFrameHw).1
      goodFrameHw (by decide) (by decide) (by decide) (Or.inl (by decide))).1,
   by decide⟩

theorem Sampled.refl (pin : ℕ) (hw : Hw) : Sampled pin 0 hw hw :=
  ⟨rfl, rfl, rfl, rfl⟩

theorem Sampled.trans {pin k₁ k₂ : ℕ} {a b c : Hw} (h₁ : Sampled pin k₁ a b)
    (h₂ : Sampled pin k₂ b c) : Sampled pin (k₂ + k₁) a c := by
  refine ⟨?_, ?_, h₂.2.2.1.trans h₁.2.2.1, h₂.2.2.2.trans h₁.2.2.2⟩
  · rw [h₂.1, h₁.1, ← List.append_assoc, List.replicate_add]
  · rw [h₂.2.1, h₁.2.1]; omega

theorem digitalRead_sampled (pin : ℕ) (hw : Hw) : Sampled pin 1 hw (digitalRead pin hw).2 :=
  ⟨rfl, rfl, rfl, rfl⟩

theorem expectPulseLoop_sampled (maxCycles pin : ℕ) (level : Bool) (fuel count : ℕ) (hw : Hw) :
    ∃ k, Sampled pin k hw (expectPulseLoop maxCycles pin level fuel count hw).2 := by
  induction fuel generalizing count hw with
  | zero => exact ⟨0, Sampled.refl pin hw⟩
  | succ fuel ih =>
    simp only [expectPulseLoop]
    split
    · split
      · exact ⟨1, digitalRead_sampled pin hw⟩
      · obtain ⟨k, hk⟩ := ih ((count + 1) % 4294967296) (digitalRead pin hw).2
        exact ⟨k + 1, (digitalRead_sampled pin hw).trans hk⟩
    · exact ⟨1, digitalRead_sampled pin hw⟩

theorem expectPulse_sampled (maxCycles pin : ℕ) (level : Bool) (hw : Hw) :
    ∃ k, Sampled pin k hw (expectPulse maxCycles pin level hw).2 :=
  expectPulseLoop_sampled maxCycles pin level (maxCycles + 1) 0 hw

theorem captureLoop_sampled (maxCycles pin n i : ℕ) (cycles : List ℕ) (hw : Hw) :
    ∃ k, Sampled pin k hw (captureLoop maxCycles pin n i cycles hw).2 := by
  induction n generalizing i cycles hw with
  | zero => exact ⟨0, Sampled.refl pin hw⟩
  | succ n ih =>
    simp only [captureLoop]
    obtain ⟨k₁, h₁⟩ := expectPulse_sampled maxCycles pin LOW hw
    obtain ⟨k₂, h₂⟩ := expectPulse_sampled maxCycles pin HIGH (expectPulse maxCycles pin LOW hw).2
    obtain ⟨k₃, h₃⟩ := ih (i + 2)
      ((cycles.set i (expectPulse maxCycles pin LOW hw).1).set (i + 1)
        (expectPulse maxCycles pin HIGH (expectPulse maxCycles pin LOW hw).2).1)
      (expectPulse maxCycles pin HIGH (expectPulse maxCycles pin LOW hw).2).2
    exact ⟨k₃ + (k₂ + k₁), (h₁.trans h₂).trans h₃⟩

/-- Platform calls of one exchange: the start signal, then only line samples,
then `interrupts()`; interrupts are enabled on return. -/
theorem readRawData_log (maxCycles : ℕ) (s : DHT) (hw : Hw) :
    ∃ k, (readRawData maxCycles s hw).2.2.log =
        Event.interrupts ::
          (List.replicate k (Event.digitalRead s._pin) ++ (startSignalEvents s._pin ++ hw.log)) ∧
      (readRawData maxCycles s hw).2.2.reads = hw.reads + k ∧
      (readRawData maxCycles s hw).2.2.irq = true := by
  obtain ⟨k₁, h₁⟩ := expectPulse_sampled maxCycles s._pin LOW (startSignal s._pin hw)
  obtain ⟨k₂, h₂⟩ := expectPulse_sampled maxCycles s._pin HIGH
    (expectPulse maxCycles s._pin LOW (startSignal s._pin hw)).2
  obtain ⟨k₃, h₃⟩ := captureLoop_sampled maxCycles s._pin 40 0 (List.replicate 80 0)
    (expectPulse maxCycles s._pin HIGH (expectPulse maxCycles s._pin LOW (startSignal s._pin hw)).2).2
  have h₁₂ := h₁.trans h₂
  have h₁₂₃ := h₁₂.trans h₃
  have hs : (startSignal s._pin hw).log = startSignalEvents s._pin ++ hw.log := rfl
  have hr : (startSignal s._pin hw).reads = hw.reads := rfl
  unfold readRawData
  simp only []
  generalize captureLoop maxCycles s._pin 40 0 (List.replicate 80 0)
    (expectPulse maxCycles s._pin HIGH
      (expectPulse maxCycles s._pin LOW (startSignal s._pin hw)).2).2 = C at h₃ h₁₂₃ ⊢
  generalize decodeLoop C.1 40 0 [0, 0, 0, 0, 0] = D
  split
  · exact ⟨k₁, by rw [← hs, ← h₁.1]; rfl, by rw [← hr, ← h₁.2.1]; rfl, rfl⟩
  · split
    · exact ⟨k₂ + k₁, by rw [← hs, ← h₁₂.1]; rfl, by rw [← hr, ← h₁₂.2.1]; rfl, rfl⟩
    · split
      · exact ⟨k₃ + (k₂ + k₁), by rw [← hs, ← h₁₂₃.1]; rfl, by rw [← hr, ← h₁₂₃.2.1]; rfl, rfl⟩
      · exact ⟨k₃ + (k₂ + k₁), by rw [← hs, ← h₁₂₃.1]; rfl, by rw [← hr, ← h₁₂₃.2.1]; rfl, rfl⟩

theorem begin_fst (now : ℕ) (s : DHT) (hw : Hw) :
    (DHT.begin now s hw).1 = { s with _lastReadTime := sub32 now MIN_INTERVAL } := by
  unfold DHT.begin
  simp only []

theorem begin_snd (now : ℕ) (s : DHT) (hw : Hw) :
    (DHT.begin now s hw).2 = pinMode s._pin PinMode.INPUT_PULLUP hw := by
  unfold DHT.begin
  simp only []

/-- C8: whatever the 32-bit clock value `t0` at which `begin()` runs (also below
2000, where the seed wraps), a first `read()` at a clock value `t1` with
`(t1 - t0) mod 2^32 < 2^32 - 2000` is not served from cache: it stores `t1` as
timestamp and performs one exchange. -/
theorem first_read_after_begin_fresh (maxCycles t0 t1 : ℕ) (s : DHT) (hw : Hw)
    (h0 : t0 < 4294967296) (h1 : t1 < 4294967296)
    (hd : sub32 t1 t0 < 4294967296 - 2000) :
    2000 ≤ sub32 t1 (DHT.begin t0 s hw).1._lastReadTime ∧
    (DHT.read maxCycles t1 (DHT.begin t0 s hw).1 (DHT.begin t0 s hw).2).2.1 =
      (readRawData maxCycles { (DHT.begin t0 s hw).1 with _lastReadTime := t1 }
        (DHT.begin t0 s hw).2).2.1 ∧
    (DHT.read maxCycles t1 (DHT.begin t0 s hw).1 (DHT.begin t0 s hw).2).2.2 =
      (readRawData maxCycles { (DHT.begin t0 s hw).1 with _lastReadTime := t1 }
        (DHT.begin t0 s hw).2).2.2 ∧
    (DHT.read maxCycles t1 (DHT.begin t0 s hw).1 (DHT.begin t0 s hw).2).2.1._lastReadTime = t1 ∧
    ∃ k, (DHT.read maxCycles t1 (DHT.begin t0 s hw).1 (DHT.begin t0 s hw).2).2.2.log =
      Event.interrupts ::
        (List.replicate k (Event.digitalRead s._pin) ++
          (startSignalEvents s._pin ++ (DHT.begin t0 s hw).2.log)) := by
  rw [begin_fst, begin_snd]
  have hfresh : 2000 ≤ sub32 t1 (sub32 t0 MIN_INTERVAL) := by
    unfold sub32 MIN_INTERVAL at *
    omega
  have hst := readRawData_state maxCycles
    { _pin := s._pin, _data := s._data, _lastReadTime := t1,
      _lastReadSuccess := s._lastReadSuccess } (pinMode s._pin PinMode.INPUT_PULLUP hw)
  obtain ⟨k, hk⟩ := readRawData_log maxCycles
    { _pin := s._pin, _data := s._data, _lastReadTime := t1,
      _lastReadSuccess := s._lastReadSuccess } (pinMode s._pin PinMode.INPUT_PULLUP hw)
  have hnot : ¬ sub32 t1
      ({ s with _lastReadTime := sub32 t0 MIN_INTERVAL } : DHT)._lastReadTime < 2000 := by
    simp only []
    exact Nat.not_lt.mpr hfresh
  rw [read_of_fresh maxCycles t1 { s with _lastReadTime := sub32 t0 MIN_INTERVAL }
    (pinMode s._pin PinMode.INPUT_PULLUP hw) hnot]
  simp only [] at hst hk ⊢
  generalize readRawData maxCycles
    { _pin := s._pin, _data := s._data, _lastReadTime := t1,
      _lastReadSuccess := s._lastReadSuccess } (pinMode s._pin PinMode.INPUT_PULLUP hw) = r at hst hk
  exact ⟨hfresh, trivial, trivial, hst.2.1, k, hk.1⟩

set_option maxRecDepth 100000 in
/-- Witness for C8: `begin()` at clock value 1000 seeds the timestamp with
`2^32 - 1000`; a `read()` at the same clock value still runs an exchange and
returns the frame carried by the line. -/
theorem first_read_after_begin_fresh_witness :
    (DHT.begin 1000 (DHT.new 2) goodFrameHw).1._lastReadTime = 4294966296 ∧
    2000 ≤ sub32 1000 (DHT.begin 1000 (DHT.new 2) goodFrameHw).1._lastReadTime ∧
    (DHT.read 10 1000 (DHT.begin 1000 (DHT.new 2) goodFrameHw).1
      (DHT.begin 1000 (DHT.new 2) goodFrameHw).2).2.1._lastReadTime = 1000 ∧
    (DHT.read 10 1000 (DHT.begin 1000 (DHT.new 2) goodFrameHw).1
      (DHT.begin 1000 (DHT.new 2) goodFrameHw).2).1.isValid = true :=
  ⟨by decide,
   (first_read_after_begin_fresh 10 1000 1000 (DHT.new 2) goodFrameHw (by decide) (by decide)
      (by decide)).1,
   (first_read_after_begin_fresh 10 1000 1000 (DHT.new 2) goodFrameHw (by decide) (by decide)
      (by decide)).2.2.2.1,
   by decide⟩

set_option maxRecDepth 100000 in
/-- Counterexample to C9 as stated: under a constant (hence non-decreasing)
clock, `begin()`, `read()`, `begin()` at clock value 5000 leave the timestamps
3000, 5000, 3000, and `begin()`, `read()` at clock value 0 leave `2^32 - 2000`
and then 0: the stored timestamp decreases. -/
theorem timestamp_monotone_counterexample :
    (nonDecreasing ([Op.begin 5000, Op.read 5000, Op.begin 5000].map Op.time) = true ∧
      timestampTrace 10 [Op.begin 5000, Op.read 5000, Op.begin 5000] (DHT.new 2, idleHw) =
        [3000, 5000, 3000] ∧
      nonDecreasing ((DHT.new 2)._lastReadTime ::
        timestampTrace 10 [Op.begin 5000, Op.read 5000, Op.begin 5000] (DHT.new 2, idleHw)) = false) ∧
    (nonDecreasing ([Op.begin 0, Op.read 0].map Op.time) = true ∧
      timestampTrace 10 [Op.begin 0, Op.read 0] (DHT.new 2, idleHw) = [4294965296, 0] ∧
      nonDecreasing ((DHT.new 2)._lastReadTime ::
        timestampTrace 10 [Op.begin 0, Op.read 0] (DHT.new 2, idleHw)) = false) := by
  decide

theorem read_timestamp (maxCycles now : ℕ) (s : DHT) (hw : Hw) :
    (DHT.read maxCycles now s hw).2.1._lastReadTime =
      if sub32 now s._lastReadTime < 2000 then s._lastReadTime else now := by
  by_cases h : sub32 now s._lastReadTime < 2000
  · rw [if_pos h, read_of_cache_hit maxCycles now s hw h]
  · rw [if_neg h, read_of_fresh maxCycles now s hw h]
    exact (readRawData_state maxCycles { s with _lastReadTime := now } hw).2.1

theorem nonDecreasing_cons (a b : ℕ) (l : List ℕ) :
    nonDecreasing (a :: b :: l) = true ↔ a ≤ b ∧ nonDecreasing (b :: l) = true := by
  simp [nonDecreasing]

theorem nonDecreasing_of_le {a b : ℕ} (hab : a ≤ b) (l : List ℕ)
    (h : nonDecreasing (b :: l) = true) : nonDecreasing (a :: l) = true := by
  cases l with
  | nil => rfl
  | cons c l =>
    rw [nonDecreasing_cons] at h ⊢
    exact ⟨le_trans hab h.1, h.2⟩

/-- C9 (amended): starting from any driver whose stored timestamp does not
exceed the clock, every sequence of `read()` calls made under a non-decreasing
clock leaves, after each call, a stored timestamp greater than or equal to its
value before that call. -/
theorem read_timestamp_monotone (maxCycles : ℕ) (ts : List ℕ) (s : DHT) (hw : Hw)
    (h : nonDecreasing (s._lastReadTime :: ts) = true) :
    nonDecreasing
      (s._lastReadTime :: timestampTrace maxCycles (ts.map Op.read) (s, hw)) = true := by
  induction ts generalizing s hw with
  | nil => rfl
  | cons t ts ih =>
    rw [nonDecreasing_cons] at h
    have hts := read_timestamp maxCycles t s hw
    have hge : s._lastReadTime ≤ (DHT.read maxCycles t s hw).2.1._lastReadTime := by
      rw [hts]; split <;> omega
    have hle : (DHT.read maxCycles t s hw).2.1._lastReadTime ≤ t := by
      rw [hts]; split <;> omega
    show nonDecreasing (s._lastReadTime ::
        (DHT.read maxCycles t s hw).2.1._lastReadTime ::
          timestampTrace maxCycles (ts.map Op.read) (DHT.read maxCycles t s hw).2) = true
    rw [nonDecreasing_cons]
    exact ⟨hge, ih _ _ (nonDecreasing_of_le hle ts h.2)⟩

set_option maxRecDepth 100000 in
/-- Witness for C9 (amended): after `begin()` at clock value 5000 (timestamp
3000), reads at 5000, 5500 and 8000 leave the timestamps 5000, 5000, 8000. -/
theorem read_timestamp_monotone_witness :
    nonDecreasing (3000 :: [5000, 5500, 8000]) = true ∧
    nonDecreasing (3000 ::
      timestampTrace 10 ([5000, 5500, 8000].map Op.read)
        ({ _pin := 2, _data := [0, 0, 0, 0, 0], _lastReadTime := 3000,
           _lastReadSuccess := false }, idleHw)) = true ∧
    timestampTrace 10 ([5000, 5500, 8000].map Op.read)
        ({ _pin := 2, _data := [0, 0, 0, 0, 0], _lastReadTime := 3000,
           _lastReadSuccess := false }, idleHw) = [5000, 5000, 8000] :=
  ⟨by decide,
   read_timestamp_monotone 10 [5000, 5500, 8000]
     { _pin := 2, _data := [0, 0, 0, 0, 0], _lastReadTime := 3000, _lastReadSuccess := false }
     idleHw (by decide),
   by decide⟩

theorem getD_lt_of_forall_mem (data : List ℕ) (hbyte : ∀ x ∈ data, x < 256) (j : ℕ) :
    data.getD j 0 < 256 := by
  rcases Nat.lt_or_ge j data.length with h | h
  · rw [List.getD_eq_getElem _ _ h]
    exact hbyte _ (List.getElem_mem h)
  · rw [List.getD_eq_default _ _ h]
    norm_num

set_option maxRecDepth 100000 in
theorem sub_neg_one_exact :
    ∀ b, b < 256 → F32.sub (F32.ofInt (-1)) (F32.ofInt (b : ℕ)) = F32.ofInt (-1 - (b : ℕ)) := by
  decide

set_option maxRecDepth 100000 in
theorem sign_bit_test : ∀ d, d < 256 → ((d &&& 0x80 ≠ 0) ↔ d.testBit 7 = true) := by
  decide

theorem and_mask_sign (x : ℕ) : (x &&& 0x8f) &&& 0x80 = x &&& 0x80 := by
  have h : (0x8f : ℕ) &&& 0x80 = 0x80 := by decide
  rw [Nat.and_assoc, h]

theorem and_mask_nibble (x : ℕ) : (x &&& 0x8f) &&& 0x0f = x &&& 0x0f := by
  have h : (0x8f : ℕ) &&& 0x0f = 0x0f := by decide
  rw [Nat.and_assoc, h]

/-- C10: for a frame of bytes, `computeTemperature` returns the float sum of `m`
and the float product `(byte[3] & 0x0F) * 0.1f`, where `m` is the integer
`-1 - byte[2]` when bit 7 of byte 3 is set and `byte[2]` otherwise; frames that
agree on byte 2 and on bits 7 and 0..3 of byte 3 give the same result. -/
theorem computeTemperature_formula (data : List ℕ) (hbyte : ∀ x ∈ data, x < 256) :
    computeTemperature data =
      F32.add
        (F32.ofInt (if (data.getD 3 0).testBit 7 = true then -1 - (data.getD 2 0 : ℤ)
          else (data.getD 2 0 : ℤ)))
        (F32.mul (F32.ofInt ((data.getD 3 0 &&& 0x0f : ℕ) : ℤ)) F32.tenth) ∧
    ∀ other : List ℕ, other.getD 2 0 = data.getD 2 0 →
      other.getD 3 0 &&& 0x8f = data.getD 3 0 &&& 0x8f →
      computeTemperature other = computeTemperature data := by
  constructor
  · unfold computeTemperature
    simp only []
    have h3 := sign_bit_test (data.getD 3 0) (getD_lt_of_forall_mem data hbyte 3)
    by_cases hs : (data.getD 3 0).testBit 7 = true
    · rw [if_pos (h3.mpr hs), if_pos hs,
        sub_neg_one_exact (data.getD 2 0) (getD_lt_of_forall_mem data hbyte 2)]
    · rw [if_neg (fun h => hs (h3.mp h)), if_neg hs]
  · intro other h2 h3
    unfold computeTemperature
    simp only []
    rw [h2, ← and_mask_sign (other.getD 3 0), ← and_mask_nibble (other.getD 3 0), h3,
      and_mask_sign, and_mask_nibble]

/-- Witness for C10: byte[3] = 0x80 and byte[2] = 25 give -26; byte[3] = 0x00
and byte[2] = 25 give 25.0; byte[3] = 0xF5 gives the same value as 0x85,
namely -25.5. -/
theorem computeTemperature_formula_witness :
    computeTemperature [45, 0, 25, 0x80, 198] = F32.ofInt (-26) ∧
    computeTemperature [45, 0, 25, 0x00, 70] = F32.ofInt 25 ∧
    computeTemperature [45, 0, 25, 0xf5, 59] = computeTemperature [45, 0, 25, 0x85, 203] ∧
    computeTemperature [45, 0, 25, 0x85, 203] = F32.fin (-51) (-1) :=
  ⟨(computeTemperature_formula [45, 0, 25, 0x80, 198] (by decide)).1.trans (by decide),
   (computeTemperature_formula [45, 0, 25, 0x00, 70] (by decide)).1.trans (by decide),
   (computeTemperature_formula [45, 0, 25, 0x85, 203] (by decide)).2
     [45, 0, 25, 0xf5, 59] (by decide) (by decide),
   (computeTemperature_formula [45, 0, 25, 0x85, 203] (by decide)).1.trans (by decide)⟩

/-- Fuel beyond `maxCycles + 1 - count` does not change the result of the pulse
loop: the branch taken when the fuel is exhausted is never reached from
`expectPulse`. -/
theorem expectPulseLoop_fuel (maxCycles pin : ℕ) (level : Bool) (hB : maxCycles < 4294967296)
    (fuel count : ℕ) (hw : Hw) (hc : count ≤ maxCycles) (hf : maxCycles + 1 - count ≤ fuel) :
    expectPulseLoop maxCycles pin level fuel count hw =
      expectPulseLoop maxCycles pin level (maxCycles + 1 - count) count hw := by
  induction fuel generalizing count hw with
  | zero => omega
  | succ fuel ih =>
    have e : maxCycles + 1 - count = (maxCycles - count) + 1 := by omega
    rw [e]
    simp only [expectPulseLoop]
    split
    · split
      · rfl
      · have hlt : count < maxCycles := by omega
        have hmod : (count + 1) % 4294967296 = count + 1 := Nat.mod_eq_of_lt (by omega)
        rw [hmod, ih (count + 1) _ (by omega) (by omega)]
        have e2 : maxCycles + 1 - (count + 1) = maxCycles - count := by omega
        rw [e2]
    · rfl

/-- The literal `0.1f` is within half a unit in the last place (`2^-28`) of one
tenth. -/
theorem tenth_nearest :
    F32.toRat F32.tenth = some (13421773 / 134217728) ∧
      |(13421773 / 134217728 : ℚ) - 1 / 10| ≤ 1 / 268435456 := by
  constructor
  · simp only [F32.toRat, F32.tenth]
    norm_num
  · rw [abs_le]
    constructor <;> norm_num

set_option maxRecDepth 100000 in
theorem humidity_integer_exact :
    ∀ b, b < 256 →
      F32.add (F32.ofInt (b : ℕ)) (F32.mul (F32.ofInt ((0 : ℕ) : ℤ)) F32.tenth) = F32.ofInt (b : ℕ) := by
  decide

set_option maxRecDepth 100000 in
theorem humidity_half_exact :
    ∀ b, b < 256 →
      F32.add (F32.ofInt (b : ℕ)) (F32.mul (F32.ofInt ((5 : ℕ) : ℤ)) F32.tenth) =
        F32.round (2 * (b : ℕ) + 1) (-1) := by
  decide

/-- C11: for a frame of bytes, `computeHumidity` returns the float sum of
`byte[0]` and the float product `byte[1] * 0.1f`; frames that agree on bytes 0
and 1 give the same result; with `byte[1] = 0` the result is exactly `byte[0]`,
and with `byte[1] = 5` it is exactly `byte[0] + 1/2`. -/
theorem computeHumidity_formula (data : List ℕ) (hbyte : ∀ x ∈ data, x < 256) :
    computeHumidity data =
      F32.add (F32.ofInt (data.getD 0 0)) (F32.mul (F32.ofInt (data.getD 1 0)) F32.tenth) ∧
    (∀ other : List ℕ, other.getD 0 0 = data.getD 0 0 → other.getD 1 0 = data.getD 1 0 →
      computeHumidity other = computeHumidity data) ∧
    (data.getD 1 0 = 0 → computeHumidity data = F32.ofInt (data.getD 0 0)) ∧
    (data.getD 1 0 = 5 → computeHumidity data = F32.round (2 * (data.getD 0 0 : ℤ) + 1) (-1)) := by
  have h0 := getD_lt_of_forall_mem data hbyte 0
  refine ⟨rfl, ?_, ?_, ?_⟩
  · intro other e0 e1
    unfold computeHumidity
    rw [e0, e1]
  · intro h1
    unfold computeHumidity
    rw [h1]
    exact humidity_integer_exact _ h0
  · intro h1
    unfold computeHumidity
    rw [h1]
    exact humidity_half_exact _ h0

/-- Witness for C11: `[45, 0, ...]` gives 45.0 and `[45, 5, ...]` gives 45.5
(`91 * 2^-1`), whatever bytes 2 to 4 are. -/
theorem computeHumidity_formula_witness :
    computeHumidity [45, 0, 25, 0, 70] = F32.ofInt 45 ∧
    computeHumidity [45, 5, 25, 0, 75] = F32.fin 91 (-1) ∧
    F32.toRat (F32.fin 91 (-1)) = some (45 + 1 / 2) ∧
    computeHumidity [45, 5, 0, 255, 49] = computeHumidity [45, 5, 25, 0, 75] :=
  ⟨(computeHumidity_formula [45, 0, 25, 0, 70] (by decide)).2.2.1 rfl,
   ((computeHumidity_formula [45, 5, 25, 0, 75] (by decide)).2.2.2 rfl).trans (by decide),
   by simp only [F32.toRat]; norm_num,
   (computeHumidity_formula [45, 5, 25, 0, 75] (by decide)).2.1 [45, 5, 0, 255, 49] rfl rfl⟩

theorem digitalRead_fst (pin : ℕ) (hw : Hw) : (digitalRead pin hw).1 = hw.line hw.reads := rfl

theorem digitalRead_reads (pin : ℕ) (hw : Hw) : (digitalRead pin hw).2.reads = hw.reads + 1 := rfl

theorem digitalRead_line (pin : ℕ) (hw : Hw) : (digitalRead pin hw).2.line = hw.line := rfl

/-- The pulse loop on a line that matches `level` for `n` more samples and then
differs returns the counter advanced by `n`, after `n + 1` samples. -/
theorem expectPulseLoop_leave (maxCycles pin : ℕ) (level : Bool) (hB : maxCycles < 4294967296)
    (n fuel count : ℕ) (hw : Hw) (hc : count + n ≤ maxCycles) (hf : n < fuel)
    (hmatch : ∀ j, j < n → hw.line (hw.reads + j) = level)
    (hleave : hw.line (hw.reads + n) ≠ level) :
    (expectPulseLoop maxCycles pin level fuel count hw).1 = count + n ∧
      (expectPulseLoop maxCycles pin level fuel count hw).2.reads = hw.reads + n + 1 := by
  induction n generalizing fuel count hw with
  | zero =>
    obtain ⟨fuel, rfl⟩ : ∃ f, fuel = f + 1 := ⟨fuel - 1, by omega⟩
    simp only [expectPulseLoop]
    rw [if_neg (by rw [digitalRead_fst]; exact hleave)]
    exact ⟨rfl, rfl⟩
  | succ n ih =>
    obtain ⟨fuel, rfl⟩ : ∃ f, fuel = f + 1 := ⟨fuel - 1, by omega⟩
    simp only [expectPulseLoop]
    have h0 := hmatch 0 (by omega)
    rw [if_pos (by rw [digitalRead_fst]; exact h0), if_neg (by omega)]
    have hmod : (count + 1) % 4294967296 = count + 1 := Nat.mod_eq_of_lt (by omega)
    rw [hmod]
    have := ih fuel (count + 1) (digitalRead pin hw).2 (by omega) (by omega)
      (by
        intro j hj
        rw [digitalRead_line, digitalRead_reads]
        have := hmatch (j + 1) (by omega)
        rwa [show hw.reads + 1 + j = hw.reads + (j + 1) by omega])
      (by
        rw [digitalRead_line, digitalRead_reads]
        rwa [show hw.reads + 1 + n = hw.reads + (n + 1) by omega])
    rw [this.1, this.2, digitalRead_reads]
    constructor <;> omega

/-- The pulse loop on a line that keeps matching `level` until the counter has
reached `maxCycles` and for one more sample returns TIMEOUT on that sample. -/
theorem expectPulseLoop_timeout (maxCycles pin : ℕ) (level : Bool) (hB : maxCycles < 4294967296)
    (fuel count : ℕ) (hw : Hw) (hc : count ≤ maxCycles) (hf : maxCycles - count < fuel)
    (hmatch : ∀ j, j ≤ maxCycles - count → hw.line (hw.reads + j) = level) :
    (expectPulseLoop maxCycles pin level fuel count hw).1 = TIMEOUT ∧
      (expectPulseLoop maxCycles pin level fuel count hw).2.reads =
        hw.reads + (maxCycles - count) + 1 := by
  induction fuel generalizing count hw with
  | zero => omega
  | succ fuel ih =>
    simp only [expectPulseLoop]
    have h0 := hmatch 0 (by omega)
    rw [if_pos (by rw [digitalRead_fst]; exact h0)]
    by_cases hge : maxCycles ≤ count
    · rw [if_pos hge]
      refine ⟨rfl, ?_⟩
      rw [digitalRead_reads]
      omega
    · rw [if_neg hge]
      have hmod : (count + 1) % 4294967296 = count + 1 := Nat.mod_eq_of_lt (by omega)
      rw [hmod]
      have := ih (count + 1) (digitalRead pin hw).2 (by omega) (by omega)
        (by
          intro j hj
          rw [digitalRead_line, digitalRead_reads]
          have := hmatch (j + 1) (by omega)
          rwa [show hw.reads + 1 + j = hw.reads + (j + 1) by omega])
      rw [this.1, this.2, digitalRead_reads]
      constructor
      · rfl
      · omega

/-- C12 (amended): with bound `B = microsecondsToClockCycles(1000)`, if the line
leaves the target level after `n` consecutive matching polls with `n <= B`,
`expectPulse(level)` returns `n` (after `n + 1` polls); if the line holds the
target level for `B + 1` consecutive polls, `expectPulse` returns TIMEOUT on the
last of them and has polled exactly `B + 1` times. -/
theorem expectPulse_result (maxCycles pin : ℕ) (level : Bool) (hw : Hw)
    (hB : maxCycles < 4294967296) :
    (∀ n, n ≤ maxCycles → (∀ j, j < n → hw.line (hw.reads + j) = level) →
      hw.line (hw.reads + n) ≠ level →
      (expectPulse maxCycles pin level hw).1 = n ∧
        (expectPulse maxCycles pin level hw).2.reads = hw.reads + n + 1) ∧
    ((∀ j, j ≤ maxCycles → hw.line (hw.reads + j) = level) →
      (expectPulse maxCycles pin level hw).1 = TIMEOUT ∧
        (expectPulse maxCycles pin level hw).2.reads = hw.reads + maxCycles + 1) := by
  constructor
  · intro n hn hmatch hleave
    have := expectPulseLoop_leave maxCycles pin level hB n (maxCycles + 1) 0 hw (by omega)
      (by omega) hmatch hleave
    unfold expectPulse
    rw [this.1, this.2]
    constructor <;> omega
  · intro hmatch
    have := expectPulseLoop_timeout maxCycles pin level hB (maxCycles + 1) 0 hw (by omega)
      (by omega) (fun j hj => hmatch j (by omega))
    unfold expectPulse
    rw [this.1, this.2]
    constructor
    · rfl
    · omega

/-- Counterexample to C12 as stated: with `B = 3` and a line that is LOW for
exactly three polls, the counter reaches `B` while the line still holds the
level, yet `expectPulse(LOW)` polls a fourth time and returns 3, not TIMEOUT. -/
theorem expectPulse_boundary_counterexample :
    (∀ j, j < 3 → (scriptedHw [false, false, false]).line j = LOW) ∧
    (expectPulse 3 2 LOW (scriptedHw [false, false, false])).1 = 3 ∧
    (expectPulse 3 2 LOW (scriptedHw [false, false, false])).1 ≠ TIMEOUT ∧
    (expectPulse 3 2 LOW (scriptedHw [false, false, false])).2.reads = 4 := by
  decide

/-- Witness for C12 (amended): with `B = 3`, a line LOW for two polls gives 2, a
line LOW for three polls gives 3, and a line that stays HIGH gives TIMEOUT for
`expectPulse(HIGH)` after exactly four polls. -/
theorem expectPulse_result_witness :
    ((expectPulse 3 2 LOW (scriptedHw [false, false])).1 = 2 ∧
      (expectPulse 3 2 LOW (scriptedHw [false, false])).2.reads = 0 + 2 + 1) ∧
    ((expectPulse 3 2 LOW (scriptedHw [false, false, false])).1 = 3 ∧
      (expectPulse 3 2 LOW (scriptedHw [false, false, false])).2.reads = 0 + 3 + 1) ∧
    ((expectPulse 3 2 HIGH idleHw).1 = TIMEOUT ∧
      (expectPulse 3 2 HIGH idleHw).2.reads = 0 + 3 + 1) :=
  ⟨(expectPulse_result 3 2 LOW (scriptedHw [false, false]) (by decide)).1 2 (by decide)
      (by decide) (by decide),
   (expectPulse_result 3 2 LOW (scriptedHw [false, false, false]) (by decide)).1 3 (by decide)
      (by decide) (by decide),
   (expectPulse_result 3 2 HIGH idleHw (by decide)).2 (by decide)⟩

/-- C20: with `B < 2^32 - 1`, `expectPulse` samples the line at most `B + 1`
times; either it returns TIMEOUT, all `B + 1` samples having matched the level,
or it returns a count `n <= B` (hence different from TIMEOUT) equal to the
number of consecutive matching samples, the sample after them being the first
that differs. -/
theorem expectPulse_bounded (maxCycles pin : ℕ) (level : Bool) (hw : Hw)
    (hB : maxCycles < 4294967295) :
    (expectPulse maxCycles pin level hw).2.reads ≤ hw.reads + (maxCycles + 1) ∧
    (((expectPulse maxCycles pin level hw).1 = TIMEOUT ∧
        (∀ j, j ≤ maxCycles → hw.line (hw.reads + j) = level) ∧
        (expectPulse maxCycles pin level hw).2.reads = hw.reads + (maxCycles + 1)) ∨
     ((expectPulse maxCycles pin level hw).1 ≤ maxCycles ∧
        (expectPulse maxCycles pin level hw).1 ≠ TIMEOUT ∧
        (∀ j, j < (expectPulse maxCycles pin level hw).1 → hw.line (hw.reads + j) = level) ∧
        hw.line (hw.reads + (expectPulse maxCycles pin level hw).1) ≠ level ∧
        (expectPulse maxCycles pin level hw).2.reads =
          hw.reads + ((expectPulse maxCycles pin level hw).1 + 1))) := by
  by_cases hall : ∀ j, j ≤ maxCycles → hw.line (hw.reads + j) = level
  · have := expectPulseLoop_timeout maxCycles pin level (by omega) (maxCycles + 1) 0 hw
      (by omega) (by omega) (fun j hj => hall j (by omega))
    unfold expectPulse
    rw [this.1, this.2]
    exact ⟨by omega, Or.inl ⟨rfl, hall, by omega⟩⟩
  · have hex : ∃ j, j ≤ maxCycles ∧ hw.line (hw.reads + j) ≠ level := by
      by_contra hne
      exact hall fun j hj => by
        by_contra hj2
        exact hne ⟨j, hj, hj2⟩
    have hspec := Nat.find_spec hex
    have hmin : ∀ j, j < Nat.find hex → hw.line (hw.reads + j) = level := by
      intro j hj
      by_contra hj2
      exact Nat.find_min hex hj ⟨by omega, hj2⟩
    have := expectPulseLoop_leave maxCycles pin level (by omega) (Nat.find hex)
      (maxCycles + 1) 0 hw (by omega) (by omega) hmin hspec.2
    unfold expectPulse
    rw [this.1, this.2, Nat.zero_add]
    refine ⟨by omega, Or.inr ⟨hspec.1, ?_, hmin, hspec.2, by omega⟩⟩
    unfold TIMEOUT
    omega

/-- Witness for C20: with `B = 3`, `expectPulse(LOW)` on a line LOW for three
polls takes four samples and returns the count 3; on a line LOW for four polls
or more it takes four samples and returns TIMEOUT. -/
theorem expectPulse_bounded_witness :
    ((expectPulse 3 2 LOW (scriptedHw [false, false, false])).2.reads ≤ 0 + (3 + 1) ∧
      (expectPulse 3 2 LOW (scriptedHw [false, false, false])).1 = 3) ∧
    ((expectPulse 3 2 LOW (scriptedHw [false, false, false, false, false])).2.reads ≤ 0 + (3 + 1) ∧
      (expectPulse 3 2 LOW (scriptedHw [false, false, false, false, false])).1 = TIMEOUT) :=
  ⟨⟨(expectPulse_bounded 3 2 LOW (scriptedHw [false, false, false]) (by decide)).1, by decide⟩,
   ⟨(expectPulse_bounded 3 2 LOW (scriptedHw [false, false, false, false, false]) (by decide)).1,
    by decide⟩⟩

/-- C13: `begin()` at clock value `t1` followed by `begin()` at `t2` leaves the
same driver as a single `begin()` at `t2` and the pin configured the same way
(the last platform call is the same `pinMode`), and `begin()` never changes the
pin identifier, the RawFrame or the cached success flag. -/
theorem begin_idempotent (t1 t2 : ℕ) (s : DHT) (hw : Hw) :
    (DHT.begin t2 (DHT.begin t1 s hw).1 (DHT.begin t1 s hw).2).1 = (DHT.begin t2 s hw).1 ∧
    (DHT.begin t2 (DHT.begin t1 s hw).1 (DHT.begin t1 s hw).2).2.log.head? =
      (DHT.begin t2 s hw).2.log.head? ∧
    (DHT.begin t2 (DHT.begin t1 s hw).1 (DHT.begin t1 s hw).2).2.log =
      Event.pinMode s._pin PinMode.INPUT_PULLUP ::
        Event.pinMode s._pin PinMode.INPUT_PULLUP :: hw.log ∧
    (DHT.begin t1 s hw).1._pin = s._pin ∧
    (DHT.begin t1 s hw).1._data = s._data ∧
    (DHT.begin t1 s hw).1._lastReadSuccess = s._lastReadSuccess ∧
    (DHT.begin t1 s hw).1._lastReadTime = sub32 t1 2000 := by
  rw [begin_fst t2 (DHT.begin t1 s hw).1, begin_snd t2 (DHT.begin t1 s hw).1,
    begin_fst t1 s hw, begin_snd t1 s hw, begin_fst t2 s hw, begin_snd t2 s hw]
  simp only [pinMode, List.head?_cons, MIN_INTERVAL, and_self]

theorem expectPulse_reads_pos (maxCycles pin : ℕ) (level : Bool) (hw : Hw) :
    hw.reads < (expectPulse maxCycles pin level hw).2.reads := by
  unfold expectPulse
  simp only [expectPulseLoop]
  split
  · split
    · rw [digitalRead_reads]; omega
    · obtain ⟨k, hk⟩ := expectPulseLoop_sampled maxCycles pin level maxCycles
        ((0 + 1) % 4294967296) (digitalRead pin hw).2
      rw [hk.2.1, digitalRead_reads]; omega
  · rw [digitalRead_reads]; omega

/-- The log of one exchange contains at least one line sample. -/
theorem readRawData_log_pos (maxCycles : ℕ) (s : DHT) (hw : Hw) :
    ∃ k, 0 < k ∧ (readRawData maxCycles s hw).2.2.log =
      Event.interrupts ::
        (List.replicate k (Event.digitalRead s._pin) ++ (startSignalEvents s._pin ++ hw.log)) := by
  obtain ⟨k, hk⟩ := readRawData_log maxCycles s hw
  obtain ⟨k₁, h₁⟩ := expectPulse_sampled maxCycles s._pin LOW (startSignal s._pin hw)
  obtain ⟨k₂, h₂⟩ := expectPulse_sampled maxCycles s._pin HIGH
    (expectPulse maxCycles s._pin LOW (startSignal s._pin hw)).2
  obtain ⟨k₃, h₃⟩ := captureLoop_sampled maxCycles s._pin 40 0 (List.replicate 80 0)
    (expectPulse maxCycles s._pin HIGH (expectPulse maxCycles s._pin LOW (startSignal s._pin hw)).2).2
  have hpos := expectPulse_reads_pos maxCycles s._pin LOW (startSignal s._pin hw)
  have hr : (startSignal s._pin hw).reads = hw.reads := rfl
  refine ⟨k, ?_, hk.1⟩
  have hreads := hk.2.1
  have h12 := (h₁.trans h₂).2.1
  have h123 := ((h₁.trans h₂).trans h₃).2.1
  have h1 := h₁.2.1
  revert hreads
  unfold readRawData
  simp only []
  generalize captureLoop maxCycles s._pin 40 0 (List.replicate 80 0)
    (expectPulse maxCycles s._pin HIGH
      (expectPulse maxCycles s._pin LOW (startSignal s._pin hw)).2).2 = C at h₃ h123 ⊢
  generalize decodeLoop C.1 40 0 [0, 0, 0, 0, 0] = D
  split
  · intro hreads
    have e : (interrupts (expectPulse maxCycles s._pin LOW (startSignal s._pin hw)).2).reads =
        (expectPulse maxCycles s._pin LOW (startSignal s._pin hw)).2.reads := rfl
    simp only [] at hreads
    rw [e] at hreads
    omega
  · split
    · intro hreads
      have e : (interrupts (expectPulse maxCycles s._pin HIGH
          (expectPulse maxCycles s._pin LOW (startSignal s._pin hw)).2).2).reads =
        (expectPulse maxCycles s._pin HIGH
          (expectPulse maxCycles s._pin LOW (startSignal s._pin hw)).2).2.reads := rfl
      simp only [] at hreads
      rw [e] at hreads
      omega
    · have e : (interrupts C.2).reads = C.2.reads := rfl
      split
      · intro hreads
        simp only [] at hreads
        rw [e] at hreads
        omega
      · intro hreads
        simp only [] at hreads
        rw [e] at hreads
        omega

theorem disabledEvents_samples (pin k : ℕ) (rest : List Event) :
    disabledEvents false (List.replicate k (Event.digitalRead pin) ++ rest) =
      List.replicate k (Event.digitalRead pin) ++ disabledEvents false rest := by
  induction k with
  | zero => rfl
  | succ k ih =>
    rw [List.replicate_succ, List.cons_append, List.cons_append]
    simp only [disabledEvents, irqStep]
    rw [ih]
    rfl

theorem disabledEvents_start (pin : ℕ) (rest : List Event) :
    disabledEvents true
      ([Event.pinMode pin PinMode.INPUT_PULLUP, Event.delay 1,
        Event.pinMode pin PinMode.OUTPUT, Event.digitalWrite pin LOW, Event.delay 20,
        Event.pinMode pin PinMode.INPUT_PULLUP, Event.delayMicroseconds 55,
        Event.noInterrupts] ++ rest) = disabledEvents false rest := rfl

/-- C14: every exchange returns with interrupts enabled.  Its platform calls
are, in order, the seven calls of the start signal, `noInterrupts()`, at least
one line sample and nothing but line samples, then `interrupts()`; replayed
from enabled interrupts, the only calls issued with interrupts disabled are
those samples and the closing `interrupts()`. -/
theorem readRawData_interrupts (maxCycles : ℕ) (s : DHT) (hw : Hw) :
    (readRawData maxCycles s hw).2.2.irq = true ∧
    ∃ k recent, 0 < k ∧ (readRawData maxCycles s hw).2.2.log = recent ++ hw.log ∧
      recent.reverse =
        [Event.pinMode s._pin PinMode.INPUT_PULLUP, Event.delay 1,
         Event.pinMode s._pin PinMode.OUTPUT, Event.digitalWrite s._pin LOW, Event.delay 20,
         Event.pinMode s._pin PinMode.INPUT_PULLUP, Event.delayMicroseconds 55,
         Event.noInterrupts] ++
          (List.replicate k (Event.digitalRead s._pin) ++ [Event.interrupts]) ∧
      disabledEvents true recent.reverse =
        List.replicate k (Event.digitalRead s._pin) ++ [Event.interrupts] := by
  obtain ⟨k, hpos, hk⟩ := readRawData_log_pos maxCycles s hw
  obtain ⟨_, _, _, hirq⟩ := readRawData_log maxCycles s hw
  have hrev : (Event.interrupts ::
      (List.replicate k (Event.digitalRead s._pin) ++ startSignalEvents s._pin)).reverse =
      [Event.pinMode s._pin PinMode.INPUT_PULLUP, Event.delay 1,
         Event.pinMode s._pin PinMode.OUTPUT, Event.digitalWrite s._pin LOW, Event.delay 20,
         Event.pinMode s._pin PinMode.INPUT_PULLUP, Event.delayMicroseconds 55,
         Event.noInterrupts] ++
          (List.replicate k (Event.digitalRead s._pin) ++ [Event.interrupts]) := by
    rw [List.reverse_cons, List.reverse_append, List.reverse_replicate]
    simp [startSignalEvents]
  refine ⟨hirq, k, Event.interrupts ::
    (List.replicate k (Event.digitalRead s._pin) ++ startSignalEvents s._pin), hpos, ?_, hrev, ?_⟩
  · rw [hk]; simp
  · rw [hrev, disabledEvents_start, disabledEvents_samples]
    rfl

theorem readRawData_low_timeout (maxCycles : ℕ) (s : DHT) (hw : Hw)
    (h : preambleLow maxCycles s._pin hw = TIMEOUT) :
    readRawData maxCycles s hw =
      (false, { s with _data := [0, 0, 0, 0, 0], _lastReadSuccess := false },
        interrupts (expectPulse maxCycles s._pin LOW (startSignal s._pin hw)).2) := by
  unfold preambleLow at h
  unfold readRawData
  simp only []
  rw [if_pos h]

theorem readRawData_high_timeout (maxCycles : ℕ) (s : DHT) (hw : Hw)
    (hlo : preambleLow maxCycles s._pin hw ≠ TIMEOUT)
    (hhi : preambleHigh maxCycles s._pin hw = TIMEOUT) :
    readRawData maxCycles s hw =
      (false, { s with _data := [0, 0, 0, 0, 0], _lastReadSuccess := false },
        interrupts (afterPreamble maxCycles s._pin hw)) := by
  unfold preambleLow at hlo
  unfold preambleHigh at hhi
  unfold readRawData afterPreamble
  simp only []
  rw [if_neg hlo, if_pos hhi]

/-- C15: when the preamble LOW measurement or the preamble HIGH measurement
returns TIMEOUT, a fresh `read()` returns `isValid = false` with NaN values,
leaves the RawFrame all zero and the cached flag false, and the platform is
the one left by that preamble measurement followed by `interrupts()`: after a
LOW timeout the HIGH preamble is not measured, and no data pulse is measured
in either case. -/
theorem read_handshake_timeout (maxCycles now : ℕ) (s : DHT) (hw : Hw)
    (hfresh : 2000 ≤ sub32 now s._lastReadTime)
    (hto : preambleLow maxCycles s._pin hw = TIMEOUT ∨
      preambleHigh maxCycles s._pin hw = TIMEOUT) :
    (DHT.read maxCycles now s hw).1 =
      { temperature := F32.nan, humidity := F32.nan, isValid := false } ∧
    (DHT.read maxCycles now s hw).2.1._data = [0, 0, 0, 0, 0] ∧
    (DHT.read maxCycles now s hw).2.1._lastReadSuccess = false ∧
    (preambleLow maxCycles s._pin hw = TIMEOUT →
      (DHT.read maxCycles now s hw).2.2 =
        interrupts (expectPulse maxCycles s._pin LOW (startSignal s._pin hw)).2) ∧
    (preambleLow maxCycles s._pin hw ≠ TIMEOUT →
      (DHT.read maxCycles now s hw).2.2 = interrupts (afterPreamble maxCycles s._pin hw)) := by
  rw [read_of_fresh maxCycles now s hw (by omega)]
  by_cases hlo : preambleLow maxCycles s._pin hw = TIMEOUT
  · rw [readRawData_low_timeout maxCycles { s with _lastReadTime := now } hw hlo]
    exact ⟨rfl, rfl, rfl, fun _ => rfl, fun h => absurd hlo h⟩
  · have hhi : preambleHigh maxCycles s._pin hw = TIMEOUT := by
      rcases hto with h | h
      · exact absurd h hlo
      · exact h
    rw [readRawData_high_timeout maxCycles { s with _lastReadTime := now } hw hlo hhi]
    exact ⟨rfl, rfl, rfl, fun h => absurd h hlo, fun _ => rfl⟩

/-- Witness for C15: with `B = 3`, a line stuck LOW times out the LOW preamble
after four samples, and an idle HIGH line times out the HIGH preamble after
five samples in all; both reads are invalid with a zero frame. -/
theorem read_handshake_timeout_witness :
    ((DHT.read 3 8000 cachedGood stuckLowHw).1 =
        { temperature := F32.nan, humidity := F32.nan, isValid := false } ∧
      (DHT.read 3 8000 cachedGood stuckLowHw).2.1._data = [0, 0, 0, 0, 0] ∧
      (DHT.read 3 8000 cachedGood stuckLowHw).2.1._lastReadSuccess = false ∧
      (DHT.read 3 8000 cachedGood stuckLowHw).2.2.reads = 4) ∧
    ((DHT.read 3 8000 cachedGood idleHw).1 =
        { temperature := F32.nan, humidity := F32.nan, isValid := false } ∧
      (DHT.read 3 8000 cachedGood idleHw).2.1._data = [0, 0, 0, 0, 0] ∧
      (DHT.read 3 8000 cachedGood idleHw).2.1._lastReadSuccess = false ∧
      (DHT.read 3 8000 cachedGood idleHw).2.2.reads = 5) :=
  ⟨⟨(read_handshake_timeout 3 8000 cachedGood stuckLowHw (by decide) (Or.inl (by decide))).1,
    (read_handshake_timeout 3 8000 cachedGood stuckLowHw (by decide) (Or.inl (by decide))).2.1,
    (read_handshake_timeout 3 8000 cachedGood stuckLowHw (by decide) (Or.inl (by decide))).2.2.1,
    by decide⟩,
   ⟨(read_handshake_timeout 3 8000 cachedGood idleHw (by decide) (Or.inr (by decide))).1,
    (read_handshake_timeout 3 8000 cachedGood idleHw (by decide) (Or.inr (by decide))).2.1,
    (read_handshake_timeout 3 8000 cachedGood idleHw (by decide) (Or.inr (by decide))).2.2.1,
    by decide⟩⟩

/-- The decode loop entered at bit `i` leaves through `return false` when some
duration at an index not yet examined equals TIMEOUT. -/
theorem decodeLoop_timeout (cycles : List ℕ) (n i : ℕ) (data : List ℕ) (hn : i + n = 40)
    (hto : ∃ j, 2 * i ≤ j ∧ j < 80 ∧ cycles.getD j 0 = TIMEOUT) :
    (decodeLoop cycles n i data).1 = false := by
  induction n generalizing i data with
  | zero =>
    obtain ⟨j, h1, h2, _⟩ := hto
    omega
  | succ n ih =>
    simp only [decodeLoop]
    split
    · rfl
    · next hne =>
      apply ih _ _ (by omega)
      obtain ⟨j, h1, h2, h3⟩ := hto
      refine ⟨j, ?_, h2, h3⟩
      rcases Nat.lt_or_ge j (2 * i + 2) with hlt | hge
      · exfalso
        apply hne
        have : j = 2 * i ∨ j = 2 * i + 1 := by omega
        rcases this with e | e
        · left; rw [← e]; exact h3
        · right; rw [← e]; exact h3
      · omega

theorem exists_getD_of_mem (cycles : List ℕ) (hlen : cycles.length = 80) (hto : TIMEOUT ∈ cycles) :
    ∃ j, 2 * 0 ≤ j ∧ j < 80 ∧ cycles.getD j 0 = TIMEOUT := by
  obtain ⟨j, hj, e⟩ := List.getElem_of_mem hto
  exact ⟨j, by omega, by omega, by rw [List.getD_eq_getElem _ _ hj]; exact e⟩

theorem readRawData_bit_timeout (maxCycles : ℕ) (s : DHT) (hw : Hw)
    (hlo : preambleLow maxCycles s._pin hw ≠ TIMEOUT)
    (hhi : preambleHigh maxCycles s._pin hw ≠ TIMEOUT)
    (hto : TIMEOUT ∈ capturedCycles maxCycles s._pin hw) :
    (readRawData maxCycles s hw).1 = false := by
  have hdec := decodeLoop_timeout (capturedCycles maxCycles s._pin hw) 40 0 [0, 0, 0, 0, 0] rfl
    (exists_getD_of_mem _ (capturedCycles_length _ _ _) hto)
  rw [readRawData_of_preamble maxCycles s hw hlo hhi]
  generalize decodeLoop (capturedCycles maxCycles s._pin hw) 40 0 [0, 0, 0, 0, 0] = D at hdec
  rw [if_pos hdec]

/-- C16: every array of 80 durations containing TIMEOUT makes the decode loop
fail; a fresh `read()` whose capture contains TIMEOUT returns `isValid = false`
with NaN values and caches the flag false, and a later `read()` served from
cache returns the same invalid Reading with NaN values. -/
theorem read_bit_timeout (maxCycles now later : ℕ) (s : DHT) (hw : Hw)
    (hfresh : 2000 ≤ sub32 now s._lastReadTime)
    (hlo : preambleLow maxCycles s._pin hw ≠ TIMEOUT)
    (hhi : preambleHigh maxCycles s._pin hw ≠ TIMEOUT)
    (hto : TIMEOUT ∈ capturedCycles maxCycles s._pin hw)
    (hhit : sub32 later now < 2000) :
    (∀ cycles : List ℕ, cycles.length = 80 → TIMEOUT ∈ cycles →
      (decodeLoop cycles 40 0 [0, 0, 0, 0, 0]).1 = false) ∧
    (DHT.read maxCycles now s hw).1 =
      { temperature := F32.nan, humidity := F32.nan, isValid := false } ∧
    (DHT.read maxCycles now s hw).2.1._lastReadSuccess = false ∧
    (DHT.read maxCycles later (DHT.read maxCycles now s hw).2.1
        (DHT.read maxCycles now s hw).2.2).1 =
      { temperature := F32.nan, humidity := F32.nan, isValid := false } := by
  refine ⟨fun cycles hlen hmem =>
    decodeLoop_timeout cycles 40 0 [0, 0, 0, 0, 0] rfl (exists_getD_of_mem cycles hlen hmem), ?_⟩
  have hfalse := readRawData_bit_timeout maxCycles { s with _lastReadTime := now } hw hlo hhi hto
  have hst := readRawData_state maxCycles { s with _lastReadTime := now } hw
  rw [read_of_fresh maxCycles now s hw (by omega)]
  generalize readRawData maxCycles { s with _lastReadTime := now } hw = r at hfalse hst
  simp only []
  have hflag : r.2.1._lastReadSuccess = false := by rw [hst.1, hfalse]
  have hlast : r.2.1._lastReadTime = now := hst.2.1
  rw [read_of_cache_hit maxCycles later r.2.1 r.2.2 (by rw [hlast]; exact hhit)]
  simp only [hfalse, hflag]
  exact ⟨rfl, trivial, rfl⟩

set_option maxRecDepth 100000 in
/-- Witness for C16: with `B = 3`, a sensor that falls silent after the byte 45
leaves the frame `[45, 0, 0, 0, 0]` in the driver, yet the read at 8000 and the
cached read at 8500 both return an invalid Reading with NaN values. -/
theorem read_bit_timeout_witness :
    (DHT.read 3 8000 cachedGood truncatedHw).2.1._data = [45, 0, 0, 0, 0] ∧
    (DHT.read 3 8000 cachedGood truncatedHw).1 =
      { temperature := F32.nan, humidity := F32.nan, isValid := false } ∧
    (DHT.read 3 8500 (DHT.read 3 8000 cachedGood truncatedHw).2.1
        (DHT.read 3 8000 cachedGood truncatedHw).2.2).1 =
      { temperature := F32.nan, humidity := F32.nan, isValid := false } :=
  ⟨by decide,
   (read_bit_timeout 3 8000 8500 cachedGood truncatedHw (by decide) (by decide) (by decide)
      (by decide) (by decide)).2.1,
   (read_bit_timeout 3 8000 8500 cachedGood truncatedHw (by decide) (by decide) (by decide)
      (by decide) (by decide)).2.2.2⟩

theorem getD_map_mul (cycles : List ℕ) (k j : ℕ) :
    (cycles.map fun c => k * c).getD j 0 = k * cycles.getD j 0 := by
  rcases Nat.lt_or_ge j cycles.length with h | h
  · rw [List.getD_eq_getElem _ _ (by rw [List.length_map]; exact h), List.getD_eq_getElem _ _ h,
      List.getElem_map]
  · rw [List.getD_eq_default _ _ (by rw [List.length_map]; exact h), List.getD_eq_default _ _ h,
      Nat.mul_zero]

theorem bitAt_scale (cycles : List ℕ) (k i : ℕ) (hk : 0 < k) :
    bitAt (cycles.map fun c => k * c) i = bitAt cycles i := by
  unfold bitAt
  rw [getD_map_mul, getD_map_mul]
  by_cases h : cycles.getD (2 * i) 0 < cycles.getD (2 * i + 1) 0
  · rw [if_pos h, if_pos (Nat.mul_lt_mul_of_pos_left h hk)]
  · rw [if_neg h, if_neg (fun h2 => h (Nat.lt_of_mul_lt_mul_left h2))]

theorem packed_scale (cycles : List ℕ) (k b n : ℕ) (hk : 0 < k) :
    packed (cycles.map fun c => k * c) b n = packed cycles b n := by
  induction n with
  | zero => rfl
  | succ n ih => rw [packed_succ, packed_succ, ih, bitAt_scale cycles k n hk]

/-- C17: for 80 durations none of which is TIMEOUT and a factor `k > 0` with
every `k * d[j]` below TIMEOUT, the decode loop gives on the scaled array the
same completion flag and the same RawFrame, hence the same checksum outcome,
as on the original array. -/
theorem decodeLoop_scale (cycles : List ℕ) (k : ℕ) (hlen : cycles.length = 80)
    (hc : ∀ c ∈ cycles, c ≠ TIMEOUT) (hk : 0 < k) (hs : ∀ c ∈ cycles, k * c < TIMEOUT) :
    decodeLoop (cycles.map fun c => k * c) 40 0 [0, 0, 0, 0, 0] =
      decodeLoop cycles 40 0 [0, 0, 0, 0, 0] ∧
    checksumOk (decodeLoop (cycles.map fun c => k * c) 40 0 [0, 0, 0, 0, 0]).2 =
      checksumOk (decodeLoop cycles 40 0 [0, 0, 0, 0, 0]).2 := by
  have hlen' : (cycles.map fun c => k * c).length = 80 := by rw [List.length_map]; exact hlen
  have hc' : ∀ c ∈ cycles.map (fun c => k * c), c ≠ TIMEOUT := by
    intro c hmem
    obtain ⟨a, ha, rfl⟩ := List.mem_map.mp hmem
    exact Nat.ne_of_lt (hs a ha)
  have h1 := decodeLoop_packed cycles (getD_ne_of_forall_mem _ hlen hc) 40 0 [0, 0, 0, 0, 0]
    rfl rfl (packed_zero_frame _)
  have h2 := decodeLoop_packed (cycles.map fun c => k * c)
    (getD_ne_of_forall_mem _ hlen' hc') 40 0 [0, 0, 0, 0, 0] rfl rfl (packed_zero_frame _)
  generalize decodeLoop cycles 40 0 [0, 0, 0, 0, 0] = D at h1
  generalize decodeLoop (cycles.map fun c => k * c) 40 0 [0, 0, 0, 0, 0] = E at h2
  have hE : E = D := by
    apply Prod.ext
    · rw [h1.1, h2.1]
    · apply eq_of_getD_eq _ _ h2.2.1 h1.2.1
      intro b hb
      rw [h2.2.2 b hb, h1.2.2 b hb, packed_scale cycles k b 40 hk]
  rw [hE]
  exact ⟨rfl, rfl⟩

set_option maxRecDepth 100000 in
/-- Witness for C17: the ideal capture of `[45, 0, 25, 0, 70]` and the same
capture with every duration multiplied by 1000 both decode to that frame. -/
theorem decodeLoop_scale_witness :
    decodeLoop ((cyclesOfFrame [45, 0, 25, 0, 70]).map fun c => 1000 * c) 40 0 [0, 0, 0, 0, 0] =
      decodeLoop (cyclesOfFrame [45, 0, 25, 0, 70]) 40 0 [0, 0, 0, 0, 0] ∧
    decodeLoop (cyclesOfFrame [45, 0, 25, 0, 70]) 40 0 [0, 0, 0, 0, 0] =
      (true, [45, 0, 25, 0, 70]) :=
  ⟨(decodeLoop_scale (cyclesOfFrame [45, 0, 25, 0, 70]) 1000 (by decide) (by decide) (by decide)
      (by decide)).1,
   by decide⟩

/-- C18 (code evaluated at the failing input): `getSpecs()` reports a minimum
delay of 1000 ms while `read()` enforces 2000 ms, so a `read()` issued
`min_delay` ms after the exchange of clock value 5000 is served from cache: no
platform call, timestamp unchanged. -/
theorem read_after_min_delay_is_cached :
    (DHT.getSpecs cachedGood).min_delay = 1000 ∧ MIN_INTERVAL = 2000 ∧
    cachedGood._lastReadTime = 5000 ∧
    (DHT.read 10 (5000 + (DHT.getSpecs cachedGood).min_delay) cachedGood goodFrameHw).2.2.log =
      goodFrameHw.log ∧
    (DHT.read 10 (5000 + (DHT.getSpecs cachedGood).min_delay) cachedGood goodFrameHw).2.2.reads =
      goodFrameHw.reads ∧
    (DHT.read 10 (5000 + (DHT.getSpecs cachedGood).min_delay) cachedGood
      goodFrameHw).2.1._lastReadTime = 5000 := by
  decide

theorem checksumOk_iff (data : List ℕ) :
    checksumOk data = true ↔
      data.getD 4 0 = (data.getD 0 0 + data.getD 1 0 + data.getD 2 0 + data.getD 3 0) % 256 := by
  simp only [checksumOk, beq_iff_eq]

theorem readRawData_flag_checksum (maxCycles : ℕ) (s : DHT) (hw : Hw)
    (h : (readRawData maxCycles s hw).2.1._lastReadSuccess = true) :
    checksumOk (readRawData maxCycles s hw).2.1._data = true := by
  revert h
  unfold readRawData
  simp only []
  generalize captureLoop maxCycles s._pin 40 0 (List.replicate 80 0)
    (expectPulse maxCycles s._pin HIGH
      (expectPulse maxCycles s._pin LOW (startSignal s._pin hw)).2).2 = C
  generalize decodeLoop C.1 40 0 [0, 0, 0, 0, 0] = D
  split
  · intro h; exact absurd h (by simp)
  · split
    · intro h; exact absurd h (by simp)
    · split
      · intro h; exact absurd h (by simp)
      · intro h; exact h

theorem step_invariant (maxCycles : ℕ) (op : Op) (c : DHT × Hw)
    (h : c.1._lastReadSuccess = true → checksumOk c.1._data = true) :
    (step maxCycles op c).1._lastReadSuccess = true →
      checksumOk (step maxCycles op c).1._data = true := by
  cases op with
  | begin now =>
    show (DHT.begin now c.1 c.2).1._lastReadSuccess = true →
      checksumOk (DHT.begin now c.1 c.2).1._data = true
    rw [begin_fst]
    exact h
  | read now =>
    show (DHT.read maxCycles now c.1 c.2).2.1._lastReadSuccess = true →
      checksumOk (DHT.read maxCycles now c.1 c.2).2.1._data = true
    by_cases hc : sub32 now c.1._lastReadTime < 2000
    · rw [read_of_cache_hit maxCycles now c.1 c.2 hc]
      exact h
    · rw [read_of_fresh maxCycles now c.1 c.2 hc]
      exact readRawData_flag_checksum maxCycles { c.1 with _lastReadTime := now } c.2

theorem run_invariant (maxCycles : ℕ) (ops : List Op) (c : DHT × Hw)
    (h : c.1._lastReadSuccess = true → checksumOk c.1._data = true) :
    (run maxCycles ops c).1._lastReadSuccess = true →
      checksumOk (run maxCycles ops c).1._data = true := by
  induction ops generalizing c with
  | nil => exact h
  | cons op ops ih => exact ih (step maxCycles op c) (step_invariant maxCycles op c h)

/-- C19: in every state reached from the constructor by a sequence of `begin()`
and `read()` calls, a true cached success flag implies that the cached RawFrame
has `byte[4] = (byte[0]+byte[1]+byte[2]+byte[3]) mod 256`; and every `read()`
made in such a state that returns `isValid = true` returns the values computed
from the frame then cached, which satisfies the same equation. -/
theorem reachable_flag_checksum (maxCycles pin : ℕ) (hw : Hw) (ops : List Op) :
    ((run maxCycles ops (DHT.new pin, hw)).1._lastReadSuccess = true →
      (run maxCycles ops (DHT.new pin, hw)).1._data.getD 4 0 =
        ((run maxCycles ops (DHT.new pin, hw)).1._data.getD 0 0 +
         (run maxCycles ops (DHT.new pin, hw)).1._data.getD 1 0 +
         (run maxCycles ops (DHT.new pin, hw)).1._data.getD 2 0 +
         (run maxCycles ops (DHT.new pin, hw)).1._data.getD 3 0) % 256) ∧
    ∀ now, (DHT.read maxCycles now (run maxCycles ops (DHT.new pin, hw)).1
          (run maxCycles ops (DHT.new pin, hw)).2).1.isValid = true →
      (DHT.read maxCycles now (run maxCycles ops (DHT.new pin, hw)).1
          (run maxCycles ops (DHT.new pin, hw)).2).1.temperature =
        computeTemperature (DHT.read maxCycles now (run maxCycles ops (DHT.new pin, hw)).1
          (run maxCycles ops (DHT.new pin, hw)).2).2.1._data ∧
      (DHT.read maxCycles now (run maxCycles ops (DHT.new pin, hw)).1
          (run maxCycles ops (DHT.new pin, hw)).2).1.humidity =
        computeHumidity (DHT.read maxCycles now (run maxCycles ops (DHT.new pin, hw)).1
          (run maxCycles ops (DHT.new pin, hw)).2).2.1._data ∧
      checksumOk (DHT.read maxCycles now (run maxCycles ops (DHT.new pin, hw)).1
          (run maxCycles ops (DHT.new pin, hw)).2).2.1._data = true := by
  have hinv := run_invariant maxCycles ops (DHT.new pin, hw)
    (fun h => absurd (show false = true from h) (by decide))
  generalize run maxCycles ops (DHT.new pin, hw) = c at hinv
  refine ⟨fun h => (checksumOk_iff _).mp (hinv h), ?_⟩
  intro now
  by_cases hc : sub32 now c.1._lastReadTime < 2000
  · rw [read_of_cache_hit maxCycles now c.1 c.2 hc]
    cases hs : c.1._lastReadSuccess
    · intro h; exact absurd h (by simp)
    · intro _
      exact ⟨rfl, rfl, hinv hs⟩
  · rw [read_of_fresh maxCycles now c.1 c.2 hc]
    have hst := readRawData_state maxCycles { c.1 with _lastReadTime := now } c.2
    have hck := readRawData_flag_checksum maxCycles { c.1 with _lastReadTime := now } c.2
    generalize readRawData maxCycles { c.1 with _lastReadTime := now } c.2 = r at hst hck
    cases hr : r.1
    · intro h; exact absurd h (by simp)
    · intro _
      exact ⟨rfl, rfl, hck (by rw [hst.1, hr])⟩

set_option maxRecDepth 100000 in
/-- Witness for C19: after `begin()` at 2000, a successful `read()` at 2000 and a
second `begin()`, the flag is true and the cached frame `[45, 0, 25, 0, 70]`
satisfies `70 = (45 + 0 + 25 + 0) mod 256`. -/
theorem reachable_flag_checksum_witness :
    (run 10 [Op.begin 2000, Op.read 2000, Op.begin 2500] (DHT.new 2, goodFrameHw)).1 =
      { _pin := 2, _data := [45, 0, 25, 0, 70], _lastReadTime := 500,
        _lastReadSuccess := true } ∧
    (run 10 [Op.begin 2000, Op.read 2000, Op.begin 2500]
      (DHT.new 2, goodFrameHw)).1._data.getD 4 0 = (45 + 0 + 25 + 0) % 256 :=
  ⟨by decide,
   (reachable_flag_checksum 10 2 goodFrameHw [Op.begin 2000, Op.read 2000, Op.begin 2500]).1
     (by decide) |>.trans (by decide)⟩

/-- The log and the sample counter of one exchange agree on a positive number
of line samples. -/
theorem readRawData_samples (maxCycles : ℕ) (s : DHT) (hw : Hw) :
    ∃ k, 0 < k ∧ (readRawData maxCycles s hw).2.2.log =
        Event.interrupts ::
          (List.replicate k (Event.digitalRead s._pin) ++ (startSignalEvents s._pin ++ hw.log)) ∧
      (readRawData maxCycles s hw).2.2.reads = hw.reads + k ∧
      (readRawData maxCycles s hw).2.2.irq = true := by
  obtain ⟨k, hlog, hreads, hirq⟩ := readRawData_log maxCycles s hw
  obtain ⟨k', hpos, hlog'⟩ := readRawData_log_pos maxCycles s hw
  have hlen := congrArg List.length (hlog.symm.trans hlog')
  simp only [List.length_cons, List.length_append, List.length_replicate] at hlen
  have hk : k = k' := by omega
  subst hk
  exact ⟨k, hpos, hlog, hreads, hirq⟩

/-- C7: a `read()` issued when at least 2000 ms have elapsed (modulo 2^32) since
the stored timestamp stores `now` as the new timestamp and performs exactly one
exchange: driver and platform are those left by `readRawData`; the platform log
grows by one start signal, `k >= 1` line samples (the sample counter advances
by `k`) and one `interrupts()`; when no measurement times out the outcome is the
checksum test on the frame decoded from the captured durations, and a preamble
timeout makes it invalid.  Afterwards the cached success flag equals the
returned `isValid`. -/
theorem read_fresh_exchange (maxCycles now : ℕ) (s : DHT) (hw : Hw)
    (h : 2000 ≤ sub32 now s._lastReadTime) :
    (DHT.read maxCycles now s hw).2.1 =
      (readRawData maxCycles { s with _lastReadTime := now } hw).2.1 ∧
    (DHT.read maxCycles now s hw).2.2 =
      (readRawData maxCycles { s with _lastReadTime := now } hw).2.2 ∧
    (DHT.read maxCycles now s hw).2.1._lastReadTime = now ∧
    (DHT.read maxCycles now s hw).2.1._lastReadSuccess = (DHT.read maxCycles now s hw).1.isValid ∧
    (∃ k, 0 < k ∧
      (DHT.read maxCycles now s hw).2.2.log =
        Event.interrupts ::
          (List.replicate k (Event.digitalRead s._pin) ++ (startSignalEvents s._pin ++ hw.log)) ∧
      (DHT.read maxCycles now s hw).2.2.reads = hw.reads + k) ∧
    (preambleLow maxCycles s._pin hw ≠ TIMEOUT → preambleHigh maxCycles s._pin hw ≠ TIMEOUT →
      (∀ c ∈ capturedCycles maxCycles s._pin hw, c ≠ TIMEOUT) →
      (DHT.read maxCycles now s hw).2.1._data =
        (decodeLoop (capturedCycles maxCycles s._pin hw) 40 0 [0, 0, 0, 0, 0]).2 ∧
      (DHT.read maxCycles now s hw).1.isValid =
        checksumOk (decodeLoop (capturedCycles maxCycles s._pin hw) 40 0 [0, 0, 0, 0, 0]).2) ∧
    ((preambleLow maxCycles s._pin hw = TIMEOUT ∨ preambleHigh maxCycles s._pin hw = TIMEOUT) →
      (DHT.read maxCycles now s hw).1.isValid = false) := by
  have hst := readRawData_state maxCycles { s with _lastReadTime := now } hw
  obtain ⟨k, hpos, hlog, hreads, _⟩ :=
    readRawData_samples maxCycles { s with _lastReadTime := now } hw
  have hvalid : (DHT.read maxCycles now s hw).1.isValid =
      (readRawData maxCycles { s with _lastReadTime := now } hw).1 := by
    rw [read_of_fresh maxCycles now s hw (by omega)]
    generalize readRawData maxCycles { s with _lastReadTime := now } hw = r
    simp only []
    cases r.1 <;> rfl
  have hdrv : (DHT.read maxCycles now s hw).2.1 =
      (readRawData maxCycles { s with _lastReadTime := now } hw).2.1 := by
    rw [read_of_fresh maxCycles now s hw (by omega)]
  have hplat : (DHT.read maxCycles now s hw).2.2 =
      (readRawData maxCycles { s with _lastReadTime := now } hw).2.2 := by
    rw [read_of_fresh maxCycles now s hw (by omega)]
  refine ⟨hdrv, hplat, ?_, ?_, ⟨k, hpos, ?_, ?_⟩, ?_, ?_⟩
  · rw [hdrv]; exact hst.2.1
  · rw [hdrv, hvalid]; exact hst.1
  · rw [hplat]; exact hlog
  · rw [hplat]; exact hreads
  · intro hlo hhi hc
    have hdec := decodeLoop_packed (capturedCycles maxCycles s._pin hw)
      (getD_ne_of_forall_mem _ (capturedCycles_length _ _ _) hc) 40 0 [0, 0, 0, 0, 0] rfl rfl
      (packed_zero_frame _)
    rw [hdrv, hvalid, readRawData_of_preamble maxCycles { s with _lastReadTime := now } hw hlo hhi]
    simp only []
    generalize decodeLoop (capturedCycles maxCycles s._pin hw) 40 0 [0, 0, 0, 0, 0] = D at hdec
    rw [if_neg (by rw [hdec.1]; exact Bool.noConfusion)]
    exact ⟨rfl, rfl⟩
  · intro hto
    rw [hvalid]
    by_cases hlo : preambleLow maxCycles s._pin hw = TIMEOUT
    · rw [readRawData_low_timeout maxCycles { s with _lastReadTime := now } hw hlo]
    · have hhi : preambleHigh maxCycles s._pin hw = TIMEOUT := by
        rcases hto with h1 | h1
        · exact absurd h1 hlo
        · exact h1
      rw [readRawData_high_timeout maxCycles { s with _lastReadTime := now } hw hlo hhi]

set_option maxRecDepth 100000 in
/-- Witness for C7: 3000 ms after a failed exchange the driver `cachedFailed`
runs a new exchange with a sensor that answers `[45, 0, 25, 0, 70]`: the timestamp becomes 8000, the frame is decoded from the
226 samples of the line, and the flag and the returned validity are both true.
On an idle line the same call makes 12 samples and both are false. -/
theorem read_fresh_exchange_witness :
    (2000 ≤ sub32 8000 cachedFailed._lastReadTime ∧
      (DHT.read 10 8000 cachedFailed goodFrameHw).2.1 =
        { _pin := 2, _data := [45, 0, 25, 0, 70], _lastReadTime := 8000,
          _lastReadSuccess := true } ∧
      (DHT.read 10 8000 cachedFailed goodFrameHw).1.isValid = true ∧
      (DHT.read 10 8000 cachedFailed goodFrameHw).2.2.reads = 226) ∧
    ((DHT.read 10 8000 cachedGood idleHw).2.1._lastReadTime = 8000 ∧
      (DHT.read 10 8000 cachedGood idleHw).2.1._lastReadSuccess =
        (DHT.read 10 8000 cachedGood idleHw).1.isValid ∧
      (DHT.read 10 8000 cachedGood idleHw).1.isValid = false ∧
      (DHT.read 10 8000 cachedGood idleHw).2.2.reads = 12) :=
  ⟨⟨by decide,
    by decide,
    ((read_fresh_exchange 10 8000 cachedFailed goodFrameHw (by decide)).2.2.2.2.2.1
      (by decide) (by decide) (by decide)).2.trans (by decide),
    by decide⟩,
   ⟨(read_fresh_exchange 10 8000 cachedGood idleHw (by decide)).2.2.1,
    (read_fresh_exchange 10 8000 cachedGood idleHw (by decide)).2.2.2.1,
    (read_fresh_exchange 10 8000 cachedGood idleHw (by decide)).2.2.2.2.2.2 (Or.inr (by decide)),
    by decide⟩⟩

end DHT11
